import Mathlib

/-!
Verification development for the PR-to-Issue Reference Resolution and Linking
Protocol of the `project-agent` repository.

The Go sources are embedded shallowly:

* `internal/parser/issue_refs.go` — the multi-strategy reference extractor.
  The four Go regular expressions are embedded as executable scanners over
  `List Char` that reproduce RE2 leftmost-first matching of those concrete
  patterns (ASCII word classes, word boundaries, greedy runs,
  non-overlapping `FindAll` scanning).  The deduplicating
  `map[string]IssueReference` is embedded as an association list keyed by
  the same string key (`makeKey`), with Go map insertion semantics.
* `internal/tasks/pr_linking.go` — the linking orchestrator and the
  semantic-match selector.  External collaborators (board reader/writer and
  the similarity scorer) are abstracted as an `Env` of oracle functions;
  `float64` similarity scores are modelled as rationals; Go's
  `(value, error)` returns are modelled with `Except`/`Option`.  Every
  external call is additionally recorded in an event trace so that
  "this path was never entered / no mutation was performed" claims are
  statable.
* `internal/config/config.go` — the `Config` record (values only; the
  environment loading is out of scope).

Numbers parsed by `strconv.Atoi` are natural numbers guarded by the
`int64` overflow bound, `strconv.Itoa` is embedded as `itoa`.
-/

namespace ProjectAgent

/-! ## Character classes of the RE2 patterns (ASCII, as compiled by Go) -/

/-- RE2 `\w` (word character): `[0-9A-Za-z_]`. -/
def isWordChar (c : Char) : Bool := c.isAlphanum || c == '_'

/-- The character class `[a-zA-Z0-9_-]` used for owner/repo segments. -/
def isRepoChar (c : Char) : Bool := c.isAlphanum || c == '_' || c == '-'

/-- RE2 `\s`: `[\t\n\f\r ]`. -/
def isSpaceGo (c : Char) : Bool :=
  c == '\t' || c == '\n' || c == '\x0c' || c == '\r' || c == ' '

/-! ## Small scanning helpers -/

/-- Maximal (greedy) run of decimal digits `\d+`, plus the rest. -/
def takeDigits : List Char → List Char × List Char
  | [] => ([], [])
  | c :: cs =>
    if c.isDigit then
      let p := takeDigits cs
      (c :: p.1, p.2)
    else ([], c :: cs)

/-- Maximal (greedy) run of `[a-zA-Z0-9_-]` characters, plus the rest. -/
def takeRepoChars : List Char → List Char × List Char
  | [] => ([], [])
  | c :: cs =>
    if isRepoChar c then
      let p := takeRepoChars cs
      (c :: p.1, p.2)
    else ([], c :: cs)

/-- Drop a maximal run of `\s` characters. -/
def dropSpaces : List Char → List Char
  | [] => []
  | c :: cs => if isSpaceGo c then dropSpaces cs else c :: cs

/-- `\s+`: at least one whitespace character, consumed greedily. -/
def dropSpaces1 : List Char → Option (List Char)
  | [] => none
  | c :: cs => if isSpaceGo c then some (dropSpaces cs) else none

/-- Case-insensitive literal match (the pattern letters are lowercase),
returning the rest of the input. -/
def stripCI : List Char → List Char → Option (List Char)
  | [], cs => some cs
  | _ :: _, [] => none
  | k :: ks, c :: cs => if c.toLower == k then stripCI ks cs else none

/-- Case-sensitive literal match, returning the rest of the input. -/
def stripLit : List Char → List Char → Option (List Char)
  | [], cs => some cs
  | _ :: _, [] => none
  | k :: ks, c :: cs => if c == k then stripLit ks cs else none

/-- First success of `f` over a list (RE2 leftmost-first alternation). -/
def firstSome (f : α → Option β) : List α → Option β
  | [] => none
  | a :: rest =>
    match f a with
    | some b => some b
    | none => firstSome f rest

/-! ## Decimal conversions (`strconv.Atoi` / `strconv.Itoa`) -/

def digitVal (c : Char) : Nat := c.toNat - 48

def digitsToNat (ds : List Char) : Nat :=
  ds.foldl (fun n c => n * 10 + digitVal c) 0

/-- `math.MaxInt64`, the largest value representable in Go's 64-bit `int`. -/
def maxInt64 : Nat := 9223372036854775807

/-- `strconv.Atoi` applied to an all-digit token: the parsed value, or `none`
on 64-bit overflow (the parser silently skips such references). -/
def goAtoi (ds : List Char) : Option Nat :=
  match ds with
  | [] => none
  | _ :: _ => if digitsToNat ds ≤ maxInt64 then some (digitsToNat ds) else none

/-- Decimal digit characters of `n`, most significant first; the fuel
argument (any bound above `n`) only drives the recursion. -/
def itoaAux : Nat → Nat → List Char
  | 0, _ => []
  | fuel + 1, n =>
    if n < 10 then [Nat.digitChar n]
    else itoaAux fuel (n / 10) ++ [Nat.digitChar (n % 10)]

/-- Decimal digit characters of `n`, most significant first (`strconv.Itoa`). -/
def itoaChars (n : Nat) : List Char := itoaAux (n + 1) n

/-- `strconv.Itoa` for the natural numbers produced by this subsystem. -/
def itoa (n : Nat) : String := String.mk (itoaChars n)

/-! ## The four extraction patterns of `issue_refs.go`

Each `match…Here` function attempts the corresponding RE2 pattern at the
current position (`prev` is the character immediately before the position,
`none` at the start of the text) and, on success, returns the capture, the
last consumed character and the remaining input.  `scanAll` then reproduces
`FindAllStringSubmatch`: repeated leftmost, non-overlapping matching. -/

/-- `\b` before a word character: holds iff the previous character is absent
or not a word character. -/
def noWordBefore (prev : Option Char) : Bool :=
  match prev with
  | none => true
  | some p => !isWordChar p

/-- `\b` before the class character `c0` (which may be `-`, a non-word
character): a word boundary separates a word character from a non-word
character or the edge of the text. -/
def boundaryBefore (prev : Option Char) (c0 : Char) : Bool :=
  if isWordChar c0 then noWordBefore prev
  else
    match prev with
    | none => false
    | some p => isWordChar p

/-- The keyword alternatives of
`(?i)\b(fix|fixes|fixed|close|closes|closed|resolve|resolves|resolved)\s+#(\d+)`,
in pattern order. -/
def keywordAlternatives : List (List Char) :=
  ["fix", "fixes", "fixed", "close", "closes", "closed",
   "resolve", "resolves", "resolved"].map String.toList

/-- After the keyword: `\s+#(\d+)`.  Returns the digit capture. -/
def keywordTail (cs : List Char) : Option (List Char × Char × List Char) :=
  match dropSpaces1 cs with
  | none => none
  | some r1 =>
    match r1 with
    | '#' :: r2 =>
      match takeDigits r2 with
      | ([], _) => none
      | (d :: ds, rest) => some (d :: ds, List.getLastD (d :: ds) d, rest)
    | _ => none

/-- `keywordPattern` at the current position. -/
def matchKeywordHere (prev : Option Char) (cs : List Char) :
    Option (List Char × Char × List Char) :=
  if noWordBefore prev then
    firstSome (fun kw =>
      match stripCI kw cs with
      | none => none
      | some r => keywordTail r) keywordAlternatives
  else none

/-- `simplePattern` = `\B#(\d+)\b` at the current position.  `\B` before `#`
(a non-word character) holds iff the previous character is absent or also a
non-word character; the trailing `\b` after the digits requires the next
character to be absent or a non-word character. -/
def matchSimpleHere (prev : Option Char) (cs : List Char) :
    Option (List Char × Char × List Char) :=
  match cs with
  | '#' :: r1 =>
    if (match prev with | none => false | some p => isWordChar p) then none
    else
      match takeDigits r1 with
      | ([], _) => none
      | (d :: ds, rest) =>
        match rest with
        | [] => some (d :: ds, List.getLastD (d :: ds) d, [])
        | c :: _ =>
          if isWordChar c then none
          else some (d :: ds, List.getLastD (d :: ds) d, rest)
  | _ => none

/-- `crossRepoPattern` = `\b([a-zA-Z0-9_-]+)/([a-zA-Z0-9_-]+)#(\d+)\b` at the
current position.  The greedy class runs cannot backtrack usefully because
`/`, `#` are outside the class. -/
def matchCrossHere (prev : Option Char) (cs : List Char) :
    Option ((List Char × List Char × List Char) × Char × List Char) :=
  match takeRepoChars cs with
  | ([], _) => none
  | (o :: os, r1) =>
    if boundaryBefore prev o then
      match r1 with
      | '/' :: r2 =>
        match takeRepoChars r2 with
        | ([], _) => none
        | (p :: ps, r3) =>
          match r3 with
          | '#' :: r4 =>
            match takeDigits r4 with
            | ([], _) => none
            | (d :: ds, rest) =>
              match rest with
              | [] => some ((o :: os, p :: ps, d :: ds), List.getLastD (d :: ds) d, [])
              | c :: _ =>
                if isWordChar c then none
                else some ((o :: os, p :: ps, d :: ds), List.getLastD (d :: ds) d, rest)
          | _ => none
      | _ => none
    else none

/-- The part of `urlPattern` after the scheme:
`://github\.com/([a-zA-Z0-9_-]+)/([a-zA-Z0-9_-]+)/issues/(\d+)`. -/
def urlTail (cs : List Char) :
    Option ((List Char × List Char × List Char) × Char × List Char) :=
  match stripLit ("://github.com/".toList) cs with
  | none => none
  | some r1 =>
    match takeRepoChars r1 with
    | ([], _) => none
    | (o :: os, r2) =>
      match r2 with
      | '/' :: r3 =>
        match takeRepoChars r3 with
        | ([], _) => none
        | (p :: ps, r4) =>
          match stripLit ("/issues/".toList) r4 with
          | none => none
          | some r5 =>
            match takeDigits r5 with
            | ([], _) => none
            | (d :: ds, rest) =>
              some ((o :: os, p :: ps, d :: ds), List.getLastD (d :: ds) d, rest)
      | _ => none

/-- `urlPattern` = `https?://github\.com/…` at the current position (`s?` is
greedy: prefer consuming `s`, fall back to not consuming it). -/
def matchUrlHere (_prev : Option Char) (cs : List Char) :
    Option ((List Char × List Char × List Char) × Char × List Char) :=
  match stripLit ("http".toList) cs with
  | none => none
  | some r =>
    match r with
    | 's' :: r2 =>
      match urlTail r2 with
      | some x => some x
      | none => urlTail r
    | _ => urlTail r

/-- `FindAllStringSubmatch`: scan left to right; at each position attempt the
pattern; on success emit the capture and continue after the match, otherwise
advance one character.  The fuel argument (instantiated with the text length)
only bounds the recursion; every step consumes at least one character, so the
scan is never cut short. -/
def scanAll (matchHere : Option Char → List Char → Option (α × Char × List Char)) :
    Nat → Option Char → List Char → List α
  | 0, _, _ => []
  | _ + 1, _, [] => []
  | fuel + 1, prev, c :: cs =>
    match matchHere prev (c :: cs) with
    | some (a, lastc, rest) => a :: scanAll matchHere fuel (some lastc) rest
    | none => scanAll matchHere fuel (some c) cs

def scanKeywordMatches (text : List Char) : List (List Char) :=
  scanAll matchKeywordHere text.length none text

def scanCrossMatches (text : List Char) : List (List Char × List Char × List Char) :=
  scanAll matchCrossHere text.length none text

def scanUrlMatches (text : List Char) : List (List Char × List Char × List Char) :=
  scanAll matchUrlHere text.length none text

def scanSimpleMatches (text : List Char) : List (List Char) :=
  scanAll matchSimpleHere text.length none text

/-! ## `ParseIssueReferences` -/

/-- `parser.IssueReference`. -/
structure IssueReference where
  Owner : String
  Repo : String
  Number : Nat
  IsExplicit : Bool
deriving DecidableEq, Repr

/-- `strings.ToLower` (ASCII case folding, character by character). -/
def toLowerStr (s : String) : String := String.mk (s.data.map Char.toLower)

/-- `makeKey`: the deduplication key `strings.ToLower(owner)/strings.ToLower(repo)#number`. -/
def makeKey (owner repo : String) (number : Nat) : String :=
  toLowerStr owner ++ "/" ++ toLowerStr repo ++ "#" ++ itoa number

/-- The deduplication key of a reference. -/
def keyOf (ref : IssueReference) : String := makeKey ref.Owner ref.Repo ref.Number

/-- The Go `map[string]IssueReference`, embedded as an association list in
insertion order (Go map iteration order is unspecified; the spec declares the
output order not semantically meaningful). -/
abbrev RefMap := List (String × IssueReference)

def mapFind? (m : RefMap) (k : String) : Option IssueReference :=
  match m with
  | [] => none
  | e :: rest => if e.1 = k then some e.2 else mapFind? rest k

/-- `_, exists := refs[key]`. -/
def mapContains (m : RefMap) (k : String) : Bool := (mapFind? m k).isSome

/-- `refs[key] = v`: replace an existing binding in place, else append. -/
def mapSet (m : RefMap) (k : String) (v : IssueReference) : RefMap :=
  match m with
  | [] => [(k, v)]
  | e :: rest => if e.1 = k then (k, v) :: rest else e :: mapSet rest k v

/-- `if _, exists := refs[key]; !exists { refs[key] = v }`. -/
def mapSetIfAbsent (m : RefMap) (k : String) (v : IssueReference) : RefMap :=
  if mapContains m k then m else mapSet m k v

/-- Strategy 1 insertion: keyword references, always explicit, always
attributed to the default owner/repo, unconditional write. -/
def keywordStep (defaultOwner defaultRepo : String) (m : RefMap) (ds : List Char) :
    RefMap :=
  match goAtoi ds with
  | none => m
  | some num =>
    mapSet m (makeKey defaultOwner defaultRepo num)
      { Owner := defaultOwner, Repo := defaultRepo, Number := num, IsExplicit := true }

/-- Strategy 2 insertion: cross-repository references, non-explicit,
insert only if the key is absent. -/
def crossStep (m : RefMap) (t : List Char × List Char × List Char) : RefMap :=
  match goAtoi t.2.2 with
  | none => m
  | some num =>
    let owner := String.mk t.1
    let repo := String.mk t.2.1
    mapSetIfAbsent m (makeKey owner repo num)
      { Owner := owner, Repo := repo, Number := num, IsExplicit := false }

/-- Strategy 3 insertion: URL references, non-explicit, insert only if the
key is absent. -/
def urlStep (m : RefMap) (t : List Char × List Char × List Char) : RefMap :=
  match goAtoi t.2.2 with
  | none => m
  | some num =>
    let owner := String.mk t.1
    let repo := String.mk t.2.1
    mapSetIfAbsent m (makeKey owner repo num)
      { Owner := owner, Repo := repo, Number := num, IsExplicit := false }

/-- Strategy 4 insertion: bare `#N` references, non-explicit, attributed to
the default owner/repo, insert only if the key is absent. -/
def simpleStep (defaultOwner defaultRepo : String) (m : RefMap) (ds : List Char) :
    RefMap :=
  match goAtoi ds with
  | none => m
  | some num =>
    mapSetIfAbsent m (makeKey defaultOwner defaultRepo num)
      { Owner := defaultOwner, Repo := defaultRepo, Number := num, IsExplicit := false }

/-- `parser.ParseIssueReferences`: scan `title + "\n" + body` with the four
strategies in precedence order, deduplicate through the keyed map, and return
the collected references. -/
def ParseIssueReferences (title body defaultOwner defaultRepo : String) :
    List IssueReference :=
  let text := (title ++ "\n" ++ body).toList
  let refs0 : RefMap := []
  let refs1 := (scanKeywordMatches text).foldl (keywordStep defaultOwner defaultRepo) refs0
  let refs2 := (scanCrossMatches text).foldl crossStep refs1
  let refs3 := (scanUrlMatches text).foldl urlStep refs2
  let refs4 := (scanSimpleMatches text).foldl (simpleStep defaultOwner defaultRepo) refs3
  refs4.map Prod.snd

/-- The issue numbers extracted by the keyword strategy alone. -/
def keywordRefNumbers (title body : String) : List Nat :=
  (scanKeywordMatches ((title ++ "\n" ++ body).toList)).filterMap goAtoi

/-- The issue numbers extracted by the bare-`#N` strategy alone. -/
def simpleRefNumbers (title body : String) : List Nat :=
  (scanSimpleMatches ((title ++ "\n" ++ body).toList)).filterMap goAtoi

/-- The (owner, repo, number) triples extracted by the cross-repository
strategy alone. -/
def crossRefTriples (title body : String) : List (String × String × Nat) :=
  (scanCrossMatches ((title ++ "\n" ++ body).toList)).filterMap
    (fun t => (goAtoi t.2.2).map (fun n => (String.mk t.1, String.mk t.2.1, n)))

/-! ## `internal/github` data model -/

/-- `github.ProjectItemInfo`. -/
structure ProjectItemInfo where
  ID : String
  StatusValue : String
  StatusValueID : String
  StatusFieldID : String
deriving DecidableEq, Repr

/-- `github.Issue` (`time.Time` modelled as a timestamp). -/
structure Issue where
  Number : Nat
  Title : String
  Body : String
  URL : String
  UpdatedAt : Nat
  Assignees : List String
  ProjectItem : ProjectItemInfo
  RepositoryID : String
  RepositoryName : String
  RepositoryOwner : String
deriving DecidableEq, Repr

/-- The Go zero value of `ProjectItemInfo`. -/
def zeroProjectItemInfo : ProjectItemInfo :=
  { ID := "", StatusValue := "", StatusValueID := "", StatusFieldID := "" }

/-- The Go zero value of `Issue` (used for the pseudo-issue built from the PR). -/
def zeroIssue : Issue :=
  { Number := 0, Title := "", Body := "", URL := "", UpdatedAt := 0,
    Assignees := [], ProjectItem := zeroProjectItemInfo, RepositoryID := "",
    RepositoryName := "", RepositoryOwner := "" }

/-- `github.Issue{Title: prTitle, Body: prBody}` — the pseudo-issue built
from the PR for similarity comparison. -/
def prIssueOf (prTitle prBody : String) : Issue :=
  { zeroIssue with Title := prTitle, Body := prBody }

/-! ## `internal/config` -/

/-- `config.Config` (values only; environment loading is an external
collaborator).  `float64` is modelled as `ℚ`. -/
structure Config where
  GithubToken : String
  GithubOrg : String
  ProjectNumber : Int
  GeminiAPIKey : String
  DiscordWebhookURL : String
  DiscordBotToken : String
  DiscordStandupChannelID : String
  DiscordStandupRoleID : String
  UserMappings : List (String × String)
  UnassignedIssuesUserID : String
  DailyUpdateThreshold : Int
  StalenessThresholdDays : Int
  DuplicateSimilarity : ℚ
  DryRun : Bool
  TargetStatuses : List String
deriving DecidableEq, Repr

/-! ## External collaborators and the event trace

The GitHub board reader/writer and the similarity scorer are external,
network-bound collaborators; they are abstracted as an environment of oracle
functions.  `Except.error` / `Option.some` model a non-nil Go `error`.  The
orchestrator additionally records every external call it makes in an event
trace, so that path and frame properties ("semantic matching never attempted",
"dry run performs zero mutations") are statable. -/

structure Env where
  getIssueByNumber : String → String → Nat → Except String Issue
  getIssuesByStatuses : List String → Except String (List Issue)
  compareSimilarity : Issue → Issue → Except String ℚ
  moveToPRReview : Issue → Option String
  linkPRToIssue : String → String → Nat → Issue → Option String

/-- One external call made during a run. -/
inductive Event where
  | getIssueByNumber (owner repo : String) (number : Nat)
  | getIssuesByStatuses (statuses : List String)
  | compareSimilarity (a b : Issue)
  | moveToPRReview (issue : Issue)
  | linkPRToIssue (prOwner prRepo : String) (prNumber : Nat) (issue : Issue)
deriving DecidableEq, Repr

/-! ## `internal/tasks/pr_linking.go` -/

/-- `tasks.PRLinkingReport`. -/
structure PRLinkingReport where
  DirectReferencesFound : Nat
  IssuesLinkedDirect : Nat
  SemanticMatchFound : Bool
  IssueLinkedSemantic : Nat
  IssuesMovedToPRReview : Nat
  Errors : List String
deriving DecidableEq, Repr

/-- The outcome of a run: the report, the returned `error` value, and the
trace of external calls. -/
structure LinkResult where
  report : PRLinkingReport
  error : Option String
  trace : List Event
deriving DecidableEq, Repr

/-- The scan loop of `findBestSemanticMatch`: for each candidate in order,
score it (scoring failures skip the candidate); a candidate becomes the new
best only if its score is strictly greater than the current best similarity
and at least the threshold. -/
def findBestSemanticMatchLoop (env : Env) (prIssue : Issue) (threshold : ℚ) :
    List Issue → Option Issue → ℚ → Option Issue × ℚ
  | [], best, bestSim => (best, bestSim)
  | issue :: rest, best, bestSim =>
    match env.compareSimilarity prIssue issue with
    | Except.error _ => findBestSemanticMatchLoop env prIssue threshold rest best bestSim
    | Except.ok s =>
      if bestSim < s ∧ threshold ≤ s then
        findBestSemanticMatchLoop env prIssue threshold rest (some issue) s
      else
        findBestSemanticMatchLoop env prIssue threshold rest best bestSim

/-- `tasks.findBestSemanticMatch`: build a pseudo-issue from the PR, run the
scan loop from `(nil, 0)`, and return `(bestMatch, bestSimilarity, nil)` —
the error component of the Go function is structurally `nil`. -/
def findBestSemanticMatch (env : Env) (prTitle prBody : String)
    (issues : List Issue) (threshold : ℚ) : Option Issue × ℚ × Option String :=
  let prIssue := prIssueOf prTitle prBody
  let r := findBestSemanticMatchLoop env prIssue threshold issues none 0
  (r.1, r.2, none)

/-- Step 2 of `LinkPRToIssues`: resolve each extracted reference against the
board; failures are logged and the reference skipped.  Returns the confirmed
issues (in reference order) and the fetch events. -/
def resolveDirectRefs (env : Env) : List IssueReference → List Issue × List Event
  | [] => ([], [])
  | ref :: rest =>
    let ev := Event.getIssueByNumber ref.Owner ref.Repo ref.Number
    let p := resolveDirectRefs env rest
    match env.getIssueByNumber ref.Owner ref.Repo ref.Number with
    | Except.error _ => (p.1, ev :: p.2)
    | Except.ok issue => (issue :: p.1, ev :: p.2)

/-- The direct-match half of step 4: move each issue to PR Review; a failure
appends an error string and processing continues with the next issue.
Returns (moved count, error strings, mutation events). -/
def applyDirect (env : Env) : List Issue → Nat × List String × List Event
  | [] => (0, [], [])
  | issue :: rest =>
    let p := applyDirect env rest
    match env.moveToPRReview issue with
    | some e =>
      (p.1, ("Failed to move issue #" ++ itoa issue.Number ++ " to PR Review: " ++ e)
        :: p.2.1, Event.moveToPRReview issue :: p.2.2)
    | none => (p.1 + 1, p.2.1, Event.moveToPRReview issue :: p.2.2)

/-- The semantic-match half of step 4: move the matched issue to PR Review,
then create the cross-reference link; each failure appends an error string
and the run continues (the link failure does not roll back the move). -/
def applySemantic (env : Env) (prOwner prRepo : String) (prNumber : Nat)
    (m : Issue) : Nat × List String × List Event :=
  let moved :=
    match env.moveToPRReview m with
    | some e => (0, ["Failed to move issue #" ++ itoa m.Number ++ " to PR Review: " ++ e])
    | none => (1, [])
  let linkErrs :=
    match env.linkPRToIssue prOwner prRepo prNumber m with
    | some e => ["Failed to link PR to issue #" ++ itoa m.Number ++ ": " ++ e]
    | none => []
  (moved.1, moved.2 ++ linkErrs,
    [Event.moveToPRReview m, Event.linkPRToIssue prOwner prRepo prNumber m])

/-- The statuses fetched for semantic inference. -/
def targetStatuses : List String := ["In Progress", "Sprint Backlog"]

/-- The semantic half of step 4 when there may be no semantic match:
`if semanticMatch != nil`. -/
def applySemOpt (env : Env) (prOwner prRepo : String) (prNumber : Nat) :
    Option Issue → Nat × List String × List Event
  | none => (0, [], [])
  | some m => applySemantic env prOwner prRepo prNumber m

/-- Step 4 and the final report assembly, shared by every non-fatal exit of
`LinkPRToIssues`: in dry-run mode only log (zero mutations), otherwise apply
the direct and semantic mutations. -/
def finishStep (env : Env) (prOwner prRepo : String) (prNumber : Nat)
    (cfg : Config) (refsLen : Nat) (matchedIssues : List Issue)
    (ev2 : List Event) (semErrors : List String) (semFound : Bool)
    (semLinked : Nat) (semanticMatch : Option Issue) (ev3 : List Event) :
    LinkResult :=
  if cfg.DryRun then
    { report :=
        { DirectReferencesFound := refsLen
          IssuesLinkedDirect := matchedIssues.length
          SemanticMatchFound := semFound
          IssueLinkedSemantic := semLinked
          IssuesMovedToPRReview := 0
          Errors := semErrors }
      error := none
      trace := ev2 ++ ev3 }
  else
    let ad := applyDirect env matchedIssues
    let as2 := applySemOpt env prOwner prRepo prNumber semanticMatch
    { report :=
        { DirectReferencesFound := refsLen
          IssuesLinkedDirect := matchedIssues.length
          SemanticMatchFound := semFound
          IssueLinkedSemantic := semLinked
          IssuesMovedToPRReview := ad.1 + as2.1
          Errors := semErrors ++ ad.2.1 ++ as2.2.1 }
      error := none
      trace := ev2 ++ ev3 ++ ad.2.2 ++ as2.2.2 }

/-- `tasks.LinkPRToIssues` after step 1, parameterised by the extracted
references.  Step 2 resolves them; step 3 (semantic inference) runs only when
no reference resolved, and a candidate-fetch failure there returns the
partial report together with a non-nil error; step 4 applies mutations. -/
def LinkPRToIssuesFrom (env : Env) (prOwner prRepo : String) (prNumber : Nat)
    (prTitle prBody : String) (cfg : Config) (refs : List IssueReference) :
    LinkResult :=
  let rr := resolveDirectRefs env refs
  let matchedIssues := rr.1
  let ev2 := rr.2
  let prIssue := prIssueOf prTitle prBody
  if matchedIssues.isEmpty then
    match env.getIssuesByStatuses targetStatuses with
    | Except.error e =>
      { report :=
          { DirectReferencesFound := refs.length
            IssuesLinkedDirect := matchedIssues.length
            SemanticMatchFound := false
            IssueLinkedSemantic := 0
            IssuesMovedToPRReview := 0
            Errors := [] }
        error := some ("failed to fetch issues for semantic matching: " ++ e)
        trace := ev2 ++ [Event.getIssuesByStatuses targetStatuses] }
    | Except.ok issues =>
      if issues.isEmpty then
        finishStep env prOwner prRepo prNumber cfg refs.length matchedIssues ev2
          [] false 0 none [Event.getIssuesByStatuses targetStatuses]
      else
        let ev3 := Event.getIssuesByStatuses targetStatuses ::
          issues.map (fun i => Event.compareSimilarity prIssue i)
        match findBestSemanticMatch env prTitle prBody issues cfg.DuplicateSimilarity with
        | (bestMatch, _bestSim, err) =>
          match err with
          | some msg =>
            finishStep env prOwner prRepo prNumber cfg refs.length matchedIssues ev2
              ["Semantic matching failed: " ++ msg] false 0 none ev3
          | none =>
            match bestMatch with
            | some m =>
              finishStep env prOwner prRepo prNumber cfg refs.length matchedIssues ev2
                [] true 1 (some m) ev3
            | none =>
              finishStep env prOwner prRepo prNumber cfg refs.length matchedIssues ev2
                [] false 0 none ev3
  else
    finishStep env prOwner prRepo prNumber cfg refs.length matchedIssues ev2
      [] false 0 none []

/-- `tasks.LinkPRToIssues`: parse the references from the PR title and body
(step 1) and run the rest of the pipeline. -/
def LinkPRToIssues (env : Env) (prOwner prRepo : String) (prNumber : Nat)
    (prTitle prBody : String) (cfg : Config) : LinkResult :=
  LinkPRToIssuesFrom env prOwner prRepo prNumber prTitle prBody cfg
    (ParseIssueReferences prTitle prBody prOwner prRepo)

/-! ## Specification-side selector (for the refinement claim about
`findBestSemanticMatch`) -/

/-- The (candidate, score) pairs for which the scorer succeeds against a
given left-hand issue, in candidate order. -/
def scoredWith (env : Env) (prIssue : Issue) (issues : List Issue) :
    List (Issue × ℚ) :=
  issues.filterMap (fun i =>
    match env.compareSimilarity prIssue i with
    | Except.ok s => some (i, s)
    | Except.error _ => none)

/-- The (candidate, score) pairs for which the scorer succeeds, in candidate
order. -/
def scoredCandidates (env : Env) (prTitle prBody : String)
    (issues : List Issue) : List (Issue × ℚ) :=
  scoredWith env (prIssueOf prTitle prBody) issues

/-- The scored candidates whose score meets the threshold. -/
def meetsThreshold (threshold : ℚ) (l : List (Issue × ℚ)) : List (Issue × ℚ) :=
  l.filter (fun p => threshold ≤ p.2)

/-- The first-seen element attaining the maximum score (ties broken in favour
of the earlier element). -/
def firstMaxBy : List (Issue × ℚ) → Option (Issue × ℚ)
  | [] => none
  | p :: rest =>
    match firstMaxBy rest with
    | none => some p
    | some q => if q.2 ≤ p.2 then some p else some q

/-- The selector as the specification describes it: no match if no candidate
met the threshold; otherwise the first-seen candidate attaining the maximum
score. -/
def specSelectBestMatch (env : Env) (prTitle prBody : String)
    (issues : List Issue) (threshold : ℚ) : Option Issue :=
  (firstMaxBy (meetsThreshold threshold
    (scoredCandidates env prTitle prBody issues))).map Prod.fst

/-- The deduplication map built by `ParseIssueReferences` (the four strategy
passes in precedence order); `ParseIssueReferences` is its value list. -/
def parseRefMap (title body defaultOwner defaultRepo : String) : RefMap :=
  let text := (title ++ "\n" ++ body).toList
  (scanSimpleMatches text).foldl (simpleStep defaultOwner defaultRepo)
    ((scanUrlMatches text).foldl urlStep
      ((scanCrossMatches text).foldl crossStep
        ((scanKeywordMatches text).foldl (keywordStep defaultOwner defaultRepo) [])))

/-! ## Concrete fixtures used to exhibit runs of the model -/

/-- The configuration defaults of `config.LoadFromEnv`. -/
def cfgBase : Config :=
  { GithubToken := "", GithubOrg := "", ProjectNumber := 0, GeminiAPIKey := "",
    DiscordWebhookURL := "", DiscordBotToken := "", DiscordStandupChannelID := "",
    DiscordStandupRoleID := "", UserMappings := [], UnassignedIssuesUserID := "",
    DailyUpdateThreshold := 3, StalenessThresholdDays := 180,
    DuplicateSimilarity := 85/100, DryRun := false,
    TargetStatuses := ["Inbox", "Backlog", "Sprint Backlog", "In Progress", "PR Review"] }

def issueN1 : Issue := { zeroIssue with Number := 1 }

def issueN2 : Issue := { zeroIssue with Number := 2 }

def issueN3 : Issue := { zeroIssue with Number := 3, Title := "auth fix" }

def candidateB : Issue := { zeroIssue with Number := 8, Title := "B" }

/-- A board on which every direct reference resolves. -/
def envResolves : Env :=
  { getIssueByNumber := fun _ _ _ => Except.ok issueN3
    getIssuesByStatuses := fun _ => Except.ok []
    compareSimilarity := fun _ _ => Except.ok 0
    moveToPRReview := fun _ => none
    linkPRToIssue := fun _ _ _ _ => none }

/-- A board with one semantic candidate that scores exactly 0.85. -/
def envScore85 : Env :=
  { getIssueByNumber := fun _ _ _ => Except.error "not in project"
    getIssuesByStatuses := fun _ => Except.ok [candidateB]
    compareSimilarity := fun _ _ => Except.ok (85/100)
    moveToPRReview := fun _ => none
    linkPRToIssue := fun _ _ _ _ => none }

/-- A board where issue 1 and issue 2 resolve, moving issue 1 fails and
moving issue 2 succeeds. -/
def envMoveFail1 : Env :=
  { getIssueByNumber := fun _ _ n => if n = 1 then Except.ok issueN1 else Except.ok issueN2
    getIssuesByStatuses := fun _ => Except.ok []
    compareSimilarity := fun _ _ => Except.ok 0
    moveToPRReview := fun i => if i.Number = 1 then some "boom" else none
    linkPRToIssue := fun _ _ _ _ => none }

/-- A board where no direct reference resolves and the candidate fetch fails. -/
def envFetchFail : Env :=
  { getIssueByNumber := fun _ _ _ => Except.error "nope"
    getIssuesByStatuses := fun _ => Except.error "rate limited"
    compareSimilarity := fun _ _ => Except.ok 0
    moveToPRReview := fun _ => none
    linkPRToIssue := fun _ _ _ _ => none }

/-- A board where no direct reference resolves and the single candidate is
scored 0. -/
def envScore0 : Env :=
  { getIssueByNumber := fun _ _ _ => Except.error "nope"
    getIssuesByStatuses := fun _ => Except.ok [zeroIssue]
    compareSimilarity := fun _ _ => Except.ok 0
    moveToPRReview := fun _ => none
    linkPRToIssue := fun _ _ _ _ => none }

/-! ## Decimal round-trip and key injectivity -/

theorem data_append (s t : String) : (s ++ t).data = s.data ++ t.data := by
  cases s; cases t; rfl

theorem digitsToNat_append_singleton (l : List Char) (c : Char) :
    digitsToNat (l ++ [c]) = digitsToNat l * 10 + digitVal c := by
  simp [digitsToNat, List.foldl_append]

theorem digitVal_digitChar (d : Nat) (h : d < 10) :
    digitVal (Nat.digitChar d) = d := by
  interval_cases d <;> rfl

theorem digitsToNat_itoaAux :
    ∀ (fuel n : Nat), n < fuel → digitsToNat (itoaAux fuel n) = n := by
  intro fuel
  induction fuel with
  | zero => intro n h; omega
  | succ fuel ih =>
    intro n h
    simp only [itoaAux]
    by_cases h10 : n < 10
    · rw [if_pos h10]
      simp [digitsToNat, List.foldl, digitVal_digitChar n h10]
    · rw [if_neg h10]
      have hdiv : n / 10 < n := Nat.div_lt_self (by omega) (by omega)
      rw [digitsToNat_append_singleton, ih (n / 10) (by omega),
        digitVal_digitChar (n % 10) (Nat.mod_lt n (by omega))]
      omega

theorem digitsToNat_itoaChars (n : Nat) : digitsToNat (itoaChars n) = n :=
  digitsToNat_itoaAux (n + 1) n (Nat.lt_succ_self n)

theorem string_ext {s t : String} (h : s.data = t.data) : s = t := by
  cases s; cases t
  exact congrArg String.mk h

theorem makeKey_eq_pre_append (o r : String) (n : Nat) :
    makeKey o r n = (toLowerStr o ++ "/" ++ toLowerStr r ++ "#") ++ itoa n := by
  apply string_ext
  simp [makeKey, data_append, List.append_assoc]

theorem makeKey_num_inj {o r : String} {n m : Nat}
    (h : makeKey o r n = makeKey o r m) : n = m := by
  have hd : ((toLowerStr o ++ "/" ++ toLowerStr r ++ "#") ++ itoa n).data
      = ((toLowerStr o ++ "/" ++ toLowerStr r ++ "#") ++ itoa m).data := by
    rw [← makeKey_eq_pre_append, ← makeKey_eq_pre_append, h]
  rw [data_append, data_append] at hd
  have h3 : itoaChars n = itoaChars m := List.append_cancel_left hd
  have h4 := congrArg digitsToNat h3
  rwa [digitsToNat_itoaChars, digitsToNat_itoaChars] at h4

/-! ## Association-list map lemmas -/

theorem mapFind?_mapSet_self (m : RefMap) (k : String) (v : IssueReference) :
    mapFind? (mapSet m k v) k = some v := by
  induction m with
  | nil => simp [mapSet, mapFind?]
  | cons e rest ih =>
    by_cases h : e.1 = k
    · simp [mapSet, h, mapFind?]
    · simp [mapSet, h, mapFind?, ih]

theorem mapFind?_mapSet_ne (m : RefMap) {k k2 : String} (v : IssueReference)
    (h : k2 ≠ k) : mapFind? (mapSet m k v) k2 = mapFind? m k2 := by
  induction m with
  | nil => simp [mapSet, mapFind?, Ne.symm h]
  | cons e rest ih =>
    by_cases he : e.1 = k
    · simp [mapSet, he, mapFind?, Ne.symm h]
    · simp only [mapSet, he, if_false, mapFind?, ih]

theorem mapFind?_mapSetIfAbsent_some (m : RefMap) {k k2 : String}
    (v v2 : IssueReference) (h : mapFind? m k2 = some v2) :
    mapFind? (mapSetIfAbsent m k v) k2 = some v2 := by
  unfold mapSetIfAbsent
  split
  · exact h
  · rename_i hc
    by_cases hk : k2 = k
    · subst hk
      unfold mapContains at hc
      simp [h] at hc
    · rw [mapFind?_mapSet_ne m v hk]
      exact h

theorem mapContains_mapSet (m : RefMap) (k k2 : String) (v : IssueReference)
    (h : mapContains m k2 = true) : mapContains (mapSet m k v) k2 = true := by
  by_cases hk : k2 = k
  · subst hk; simp [mapContains, mapFind?_mapSet_self]
  · unfold mapContains at h ⊢
    rwa [mapFind?_mapSet_ne m v hk]

theorem mapContains_mapSetIfAbsent (m : RefMap) (k k2 : String)
    (v : IssueReference) (h : mapContains m k2 = true) :
    mapContains (mapSetIfAbsent m k v) k2 = true := by
  unfold mapSetIfAbsent
  split
  · exact h
  · exact mapContains_mapSet m k k2 v h

theorem mapContains_mapSetIfAbsent_self (m : RefMap) (k : String)
    (v : IssueReference) : mapContains (mapSetIfAbsent m k v) k = true := by
  unfold mapSetIfAbsent
  split
  · assumption
  · simp [mapContains, mapFind?_mapSet_self]

/-- Every entry of the map is keyed by `makeKey` of its own fields, and the
keys are pairwise distinct (the Go map invariant). -/
def mapWF (m : RefMap) : Prop :=
  (∀ e ∈ m, e.1 = keyOf e.2) ∧ (m.map Prod.fst).Nodup

theorem mem_mapSet (m : RefMap) (k : String) (v : IssueReference) :
    ∀ e2 ∈ mapSet m k v, e2 = (k, v) ∨ e2 ∈ m := by
  induction m with
  | nil => simp [mapSet]
  | cons e rest ih =>
    intro e2 h2
    by_cases he : e.1 = k
    · simp only [mapSet, he, if_true, List.mem_cons] at h2
      rcases h2 with h2 | h2
      · left; exact h2
      · right; exact List.mem_cons_of_mem e h2
    · simp only [mapSet, he, if_false, List.mem_cons] at h2
      rcases h2 with h2 | h2
      · right; exact h2 ▸ List.mem_cons_self e rest
      · rcases ih e2 h2 with h3 | h3
        · left; exact h3
        · right; exact List.mem_cons_of_mem e h3

theorem mem_keys_mapSet (m : RefMap) (k k2 : String) (v : IssueReference) :
    k2 ∈ (mapSet m k v).map Prod.fst → k2 ∈ m.map Prod.fst ∨ k2 = k := by
  induction m with
  | nil => simp [mapSet]
  | cons e rest ih =>
    intro h2
    by_cases he : e.1 = k
    · simp only [mapSet, he, if_true, List.map_cons, List.mem_cons] at h2
      rcases h2 with h2 | h2
      · right; exact h2
      · left; simp only [List.map_cons, List.mem_cons]; right; exact h2
    · simp only [mapSet, he, if_false, List.map_cons, List.mem_cons] at h2
      rcases h2 with h2 | h2
      · left; simp [h2]
      · rcases ih h2 with h3 | h3
        · left; simp only [List.map_cons, List.mem_cons]; right; exact h3
        · right; exact h3

theorem nodup_keys_mapSet (m : RefMap) (k : String) (v : IssueReference)
    (h : (m.map Prod.fst).Nodup) : ((mapSet m k v).map Prod.fst).Nodup := by
  induction m with
  | nil => simp [mapSet]
  | cons e rest ih =>
    rw [List.map_cons, List.nodup_cons] at h
    by_cases he : e.1 = k
    · simp only [mapSet, he, if_true, List.map_cons, List.nodup_cons]
      exact ⟨he ▸ h.1, h.2⟩
    · simp only [mapSet, he, if_false, List.map_cons, List.nodup_cons]
      refine ⟨fun hmem => ?_, ih h.2⟩
      rcases mem_keys_mapSet rest k e.1 v hmem with h3 | h3
      · exact h.1 h3
      · exact he h3

theorem mapWF_mapSet (m : RefMap) (k : String) (v : IssueReference)
    (hk : k = keyOf v) (h : mapWF m) : mapWF (mapSet m k v) := by
  refine ⟨fun e2 h2 => ?_, nodup_keys_mapSet m k v h.2⟩
  rcases mem_mapSet m k v e2 h2 with h3 | h3
  · subst h3; exact hk
  · exact h.1 e2 h3

theorem mapWF_mapSetIfAbsent (m : RefMap) (k : String) (v : IssueReference)
    (hk : k = keyOf v) (h : mapWF m) : mapWF (mapSetIfAbsent m k v) := by
  unfold mapSetIfAbsent
  split
  · exact h
  · exact mapWF_mapSet m k v hk h

theorem values_filter_key_nil (m : RefMap) (k : String)
    (hwf : ∀ e ∈ m, e.1 = keyOf e.2) (hk : k ∉ m.map Prod.fst) :
    (m.map Prod.snd).filter (fun ref => keyOf ref == k) = [] := by
  induction m with
  | nil => rfl
  | cons e rest ih =>
    have h1 : keyOf e.2 = e.1 := (hwf e (by simp)).symm
    have h2 : e.1 ≠ k := fun hh => hk (by simp [hh])
    have hcond : (keyOf e.2 == k) = false := by simp [h1, h2]
    rw [List.map_cons, List.filter_cons]
    simp only [hcond, Bool.false_eq_true, if_false]
    exact ih (fun x hx => hwf x (by simp [hx]))
      (fun hmem => hk (by simp only [List.map_cons, List.mem_cons]; right; exact hmem))

/-- In a well-formed map that binds `k` to `v`, exactly the single value `v`
carries the key `k`. -/
theorem values_filter_key (m : RefMap) (k : String) (v : IssueReference)
    (hwf : mapWF m) (hfind : mapFind? m k = some v) :
    (m.map Prod.snd).filter (fun ref => keyOf ref == k) = [v] := by
  induction m with
  | nil => simp [mapFind?] at hfind
  | cons e rest ih =>
    obtain ⟨hkeys, hnd⟩ := hwf
    rw [List.map_cons] at hnd ⊢
    rw [List.nodup_cons] at hnd
    by_cases h1 : e.1 = k
    · unfold mapFind? at hfind
      rw [if_pos h1] at hfind
      have hev : e.2 = v := by injection hfind
      have hpk : (keyOf e.2 == k) = true := by
        have : keyOf e.2 = k := by rw [← hkeys e (by simp), h1]
        simp [this]
      rw [List.filter_cons]
      simp only [hpk, if_true]
      rw [hev, values_filter_key_nil rest k (fun x hx => hkeys x (by simp [hx]))
        (h1 ▸ hnd.1)]
    · have hp : (keyOf e.2 == k) = false := by
        have : keyOf e.2 = e.1 := (hkeys e (by simp)).symm
        simp [this, h1]
      rw [List.filter_cons]
      simp only [hp, Bool.false_eq_true, if_false]
      refine ih ⟨fun x hx => hkeys x (by simp [hx]), hnd.2⟩ ?_
      unfold mapFind? at hfind
      rwa [if_neg h1] at hfind

theorem mapFind?_mem (m : RefMap) {k : String} {v : IssueReference}
    (h : mapFind? m k = some v) : (k, v) ∈ m := by
  induction m with
  | nil => simp [mapFind?] at h
  | cons e rest ih =>
    unfold mapFind? at h
    by_cases he : e.1 = k
    · rw [if_pos he] at h
      have hv : e.2 = v := by injection h
      have : e = (k, v) := by
        obtain ⟨e1, e2⟩ := e
        simp only at he hv
        rw [he, hv]
      rw [← this]
      exact List.mem_cons_self e rest
    · rw [if_neg he] at h
      exact List.mem_cons_of_mem e (ih h)

/-! ## Fold invariants for the four extraction passes -/

theorem foldl_preserves {α : Type u} {β : Type v} {P : β → Prop} {f : β → α → β}
    (h : ∀ b a, P b → P (f b a)) :
    ∀ (l : List α) (b : β), P b → P (List.foldl f b l)
  | [], _, hb => hb
  | a :: l, b, hb => foldl_preserves h l (f b a) (h b a hb)

theorem keywordStep_preserves_find (o r : String) (n : Nat) :
    ∀ (m : RefMap) (ds : List Char),
      mapFind? m (makeKey o r n)
        = some { Owner := o, Repo := r, Number := n, IsExplicit := true } →
      mapFind? (keywordStep o r m ds) (makeKey o r n)
        = some { Owner := o, Repo := r, Number := n, IsExplicit := true } := by
  intro m ds h
  unfold keywordStep
  split
  · exact h
  · rename_i num heq
    by_cases hk : makeKey o r num = makeKey o r n
    · have hn : num = n := makeKey_num_inj hk
      subst hn
      rw [mapFind?_mapSet_self]
    · rw [mapFind?_mapSet_ne _ _ (fun hh => hk hh.symm)]
      exact h

theorem crossStep_preserves_find {k : String} {v : IssueReference} :
    ∀ (m : RefMap) (t : List Char × List Char × List Char),
      mapFind? m k = some v → mapFind? (crossStep m t) k = some v := by
  intro m t h
  unfold crossStep
  split
  · exact h
  · exact mapFind?_mapSetIfAbsent_some _ _ _ h

theorem urlStep_preserves_find {k : String} {v : IssueReference} :
    ∀ (m : RefMap) (t : List Char × List Char × List Char),
      mapFind? m k = some v → mapFind? (urlStep m t) k = some v := by
  intro m t h
  unfold urlStep
  split
  · exact h
  · exact mapFind?_mapSetIfAbsent_some _ _ _ h

theorem simpleStep_preserves_find (o r : String) {k : String} {v : IssueReference} :
    ∀ (m : RefMap) (ds : List Char),
      mapFind? m k = some v → mapFind? (simpleStep o r m ds) k = some v := by
  intro m ds h
  unfold simpleStep
  split
  · exact h
  · exact mapFind?_mapSetIfAbsent_some _ _ _ h

theorem urlStep_preserves_contains {k : String} :
    ∀ (m : RefMap) (t : List Char × List Char × List Char),
      mapContains m k = true → mapContains (urlStep m t) k = true := by
  intro m t h
  unfold urlStep
  split
  · exact h
  · exact mapContains_mapSetIfAbsent _ _ _ _ h

theorem crossStep_preserves_contains {k : String} :
    ∀ (m : RefMap) (t : List Char × List Char × List Char),
      mapContains m k = true → mapContains (crossStep m t) k = true := by
  intro m t h
  unfold crossStep
  split
  · exact h
  · exact mapContains_mapSetIfAbsent _ _ _ _ h

theorem simpleStep_preserves_contains (o r : String) {k : String} :
    ∀ (m : RefMap) (ds : List Char),
      mapContains m k = true → mapContains (simpleStep o r m ds) k = true := by
  intro m ds h
  unfold simpleStep
  split
  · exact h
  · exact mapContains_mapSetIfAbsent _ _ _ _ h

theorem keywordStep_wf (o r : String) :
    ∀ (m : RefMap) (ds : List Char), mapWF m → mapWF (keywordStep o r m ds) := by
  intro m ds h
  unfold keywordStep
  split
  · exact h
  · exact mapWF_mapSet _ _ _ rfl h

theorem crossStep_wf :
    ∀ (m : RefMap) (t : List Char × List Char × List Char),
      mapWF m → mapWF (crossStep m t) := by
  intro m t h
  unfold crossStep
  split
  · exact h
  · exact mapWF_mapSetIfAbsent _ _ _ rfl h

theorem urlStep_wf :
    ∀ (m : RefMap) (t : List Char × List Char × List Char),
      mapWF m → mapWF (urlStep m t) := by
  intro m t h
  unfold urlStep
  split
  · exact h
  · exact mapWF_mapSetIfAbsent _ _ _ rfl h

theorem simpleStep_wf (o r : String) :
    ∀ (m : RefMap) (ds : List Char), mapWF m → mapWF (simpleStep o r m ds) := by
  intro m ds h
  unfold simpleStep
  split
  · exact h
  · exact mapWF_mapSetIfAbsent _ _ _ rfl h

theorem keywordFold_find (o r : String) (n : Nat) :
    ∀ (ms : List (List Char)) (m : RefMap), n ∈ ms.filterMap goAtoi →
      mapFind? (ms.foldl (keywordStep o r) m) (makeKey o r n)
        = some { Owner := o, Repo := r, Number := n, IsExplicit := true } := by
  intro ms
  induction ms with
  | nil => intro m h; simp at h
  | cons ds rest ih =>
    intro m h
    rw [List.foldl_cons]
    cases hga : goAtoi ds with
    | none =>
      rw [List.filterMap_cons, hga] at h
      have hstep : keywordStep o r m ds = m := by
        unfold keywordStep
        rw [hga]
      rw [hstep]
      exact ih m h
    | some num =>
      rw [List.filterMap_cons, hga] at h
      rcases List.mem_cons.mp h with h2 | h2
      · subst h2
        have hstep : mapFind? (keywordStep o r m ds) (makeKey o r n)
            = some { Owner := o, Repo := r, Number := n, IsExplicit := true } := by
          unfold keywordStep
          rw [hga, mapFind?_mapSet_self]
        exact foldl_preserves (keywordStep_preserves_find o r n) rest _ hstep
      · exact ih _ h2

theorem crossFold_contains (ow rp : String) (n : Nat) :
    ∀ (ms : List (List Char × List Char × List Char)) (m : RefMap),
      (∃ t ∈ ms, String.mk t.1 = ow ∧ String.mk t.2.1 = rp ∧ goAtoi t.2.2 = some n) →
      mapContains (ms.foldl crossStep m) (makeKey ow rp n) = true := by
  intro ms
  induction ms with
  | nil => intro m h; simp at h
  | cons t rest ih =>
    intro m h
    rw [List.foldl_cons]
    rcases h with ⟨t2, ht2, hw⟩
    rcases List.mem_cons.mp ht2 with h2 | h2
    · subst h2
      have hstep : mapContains (crossStep m t2) (makeKey ow rp n) = true := by
        unfold crossStep
        rw [hw.2.2]
        rw [show String.mk t2.1 = ow from hw.1, show String.mk t2.2.1 = rp from hw.2.1]
        exact mapContains_mapSetIfAbsent_self _ _ _
      exact foldl_preserves (fun m2 a => crossStep_preserves_contains m2 a) rest _ hstep
    · exact ih (crossStep m t) ⟨t2, h2, hw⟩

theorem simpleFold_contains (o r : String) (n : Nat) :
    ∀ (ms : List (List Char)) (m : RefMap), n ∈ ms.filterMap goAtoi →
      mapContains (ms.foldl (simpleStep o r) m) (makeKey o r n) = true := by
  intro ms
  induction ms with
  | nil => intro m h; simp at h
  | cons ds rest ih =>
    intro m h
    rw [List.foldl_cons]
    cases hga : goAtoi ds with
    | none =>
      rw [List.filterMap_cons, hga] at h
      have hstep : simpleStep o r m ds = m := by
        unfold simpleStep
        rw [hga]
      rw [hstep]
      exact ih m h
    | some num =>
      rw [List.filterMap_cons, hga] at h
      rcases List.mem_cons.mp h with h2 | h2
      · subst h2
        have hstep : mapContains (simpleStep o r m ds) (makeKey o r n) = true := by
          unfold simpleStep
          rw [hga]
          exact mapContains_mapSetIfAbsent_self _ _ _
        exact foldl_preserves (fun m2 a => simpleStep_preserves_contains o r m2 a) rest _ hstep
      · exact ih _ h2

/-! ## Structure of the full parse -/

theorem ParseIssueReferences_eq (title body defaultOwner defaultRepo : String) :
    ParseIssueReferences title body defaultOwner defaultRepo
      = (parseRefMap title body defaultOwner defaultRepo).map Prod.snd := rfl

theorem parseRefMap_wf (title body defaultOwner defaultRepo : String) :
    mapWF (parseRefMap title body defaultOwner defaultRepo) := by
  unfold parseRefMap
  apply foldl_preserves (simpleStep_wf defaultOwner defaultRepo)
  apply foldl_preserves urlStep_wf
  apply foldl_preserves crossStep_wf
  apply foldl_preserves (keywordStep_wf defaultOwner defaultRepo)
  exact ⟨by simp, by simp⟩

theorem parseRefMap_find_keyword (title body defaultOwner defaultRepo : String)
    (n : Nat) (hk : n ∈ keywordRefNumbers title body) :
    mapFind? (parseRefMap title body defaultOwner defaultRepo)
        (makeKey defaultOwner defaultRepo n)
      = some { Owner := defaultOwner, Repo := defaultRepo, Number := n,
               IsExplicit := true } := by
  unfold keywordRefNumbers at hk
  unfold parseRefMap
  apply foldl_preserves (simpleStep_preserves_find defaultOwner defaultRepo)
  apply foldl_preserves (fun m2 a => urlStep_preserves_find m2 a)
  apply foldl_preserves (fun m2 a => crossStep_preserves_find m2 a)
  exact keywordFold_find defaultOwner defaultRepo n _ _ hk

theorem parseRefMap_contains_cross (title body defaultOwner defaultRepo ow rp : String)
    (n : Nat) (hc : (ow, rp, n) ∈ crossRefTriples title body) :
    mapContains (parseRefMap title body defaultOwner defaultRepo)
      (makeKey ow rp n) = true := by
  unfold crossRefTriples at hc
  rw [List.mem_filterMap] at hc
  obtain ⟨t, ht, hmap⟩ := hc
  rw [Option.map_eq_some'] at hmap
  obtain ⟨num, hnum, heq⟩ := hmap
  have h1 : String.mk t.1 = ow := congrArg Prod.fst heq
  have h2 : String.mk t.2.1 = rp := congrArg Prod.fst (congrArg Prod.snd heq)
  have h3 : num = n := congrArg Prod.snd (congrArg Prod.snd heq)
  unfold parseRefMap
  apply foldl_preserves (simpleStep_preserves_contains defaultOwner defaultRepo)
  apply foldl_preserves (fun m2 a => urlStep_preserves_contains m2 a)
  exact crossFold_contains ow rp n _ _ ⟨t, ht, h1, h2, h3 ▸ hnum⟩

theorem parseRefMap_contains_simple (title body defaultOwner defaultRepo : String)
    (n : Nat) (hs : n ∈ simpleRefNumbers title body) :
    mapContains (parseRefMap title body defaultOwner defaultRepo)
      (makeKey defaultOwner defaultRepo n) = true := by
  unfold simpleRefNumbers at hs
  unfold parseRefMap
  exact simpleFold_contains defaultOwner defaultRepo n _ _ hs

/-! ## Claims about the reference extractor -/

/-- C4: for every PR text in which the explicit-keyword strategy extracts
issue 7 (`fixes #7`) and the bare-reference strategy also extracts issue 7
(`#7`), `ParseIssueReferences` returns exactly one reference for the
deduplication key `<default>/<default>#7`, and that reference is the explicit
one: the keyword strategy runs first and the later strategies never overwrite
an existing key. -/
theorem parse_explicit_wins_for_shared_key
    (title body defaultOwner defaultRepo : String)
    (hk : 7 ∈ keywordRefNumbers title body)
    (_hs : 7 ∈ simpleRefNumbers title body) :
    (ParseIssueReferences title body defaultOwner defaultRepo).filter
        (fun ref => keyOf ref == makeKey defaultOwner defaultRepo 7)
      = [{ Owner := defaultOwner, Repo := defaultRepo, Number := 7,
           IsExplicit := true }] := by
  rw [ParseIssueReferences_eq]
  exact values_filter_key _ _ _ (parseRefMap_wf title body defaultOwner defaultRepo)
    (parseRefMap_find_keyword title body defaultOwner defaultRepo 7 hk)

theorem parse_explicit_wins_for_shared_key_witness :
    7 ∈ keywordRefNumbers "Fix stuff" "fixes #7 and #7 again"
    ∧ 7 ∈ simpleRefNumbers "Fix stuff" "fixes #7 and #7 again"
    ∧ (ParseIssueReferences "Fix stuff" "fixes #7 and #7 again" "acme" "app").filter
        (fun ref => keyOf ref == makeKey "acme" "app" 7)
      = [{ Owner := "acme", Repo := "app", Number := 7, IsExplicit := true }] :=
  ⟨by decide, by decide,
    parse_explicit_wins_for_shared_key "Fix stuff" "fixes #7 and #7 again"
      "acme" "app" (by decide) (by decide)⟩

/-- C9: for every PR text in which the cross-repository strategy extracts
`acme/widgets#9` and the bare strategy extracts `#9`, with a default repo
context whose key differs from `acme/widgets#9`, the parse result contains
two distinct references — exactly one under the `acme/widgets#9` key and
exactly one under the default key — neither overriding the other. -/
theorem parse_cross_and_bare_are_distinct
    (title body defaultOwner defaultRepo : String)
    (hc : ("acme", "widgets", 9) ∈ crossRefTriples title body)
    (hs : 9 ∈ simpleRefNumbers title body)
    (hne : makeKey "acme" "widgets" 9 ≠ makeKey defaultOwner defaultRepo 9) :
    ∃ refA ∈ ParseIssueReferences title body defaultOwner defaultRepo,
      ∃ refB ∈ ParseIssueReferences title body defaultOwner defaultRepo,
        keyOf refA = makeKey "acme" "widgets" 9
        ∧ keyOf refB = makeKey defaultOwner defaultRepo 9
        ∧ refA ≠ refB
        ∧ ((ParseIssueReferences title body defaultOwner defaultRepo).filter
            (fun ref => keyOf ref == makeKey "acme" "widgets" 9)).length = 1
        ∧ ((ParseIssueReferences title body defaultOwner defaultRepo).filter
            (fun ref => keyOf ref == makeKey defaultOwner defaultRepo 9)).length = 1 := by
  have hwf := parseRefMap_wf title body defaultOwner defaultRepo
  have h1 := parseRefMap_contains_cross title body defaultOwner defaultRepo
    "acme" "widgets" 9 hc
  have h2 := parseRefMap_contains_simple title body defaultOwner defaultRepo 9 hs
  unfold mapContains at h1 h2
  obtain ⟨vA, hvA⟩ := Option.isSome_iff_exists.mp h1
  obtain ⟨vB, hvB⟩ := Option.isSome_iff_exists.mp h2
  have hkA : keyOf vA = makeKey "acme" "widgets" 9 :=
    (hwf.1 _ (mapFind?_mem _ hvA)).symm
  have hkB : keyOf vB = makeKey defaultOwner defaultRepo 9 :=
    (hwf.1 _ (mapFind?_mem _ hvB)).symm
  have hmemA : vA ∈ ParseIssueReferences title body defaultOwner defaultRepo := by
    rw [ParseIssueReferences_eq]
    exact List.mem_map_of_mem Prod.snd (mapFind?_mem _ hvA)
  have hmemB : vB ∈ ParseIssueReferences title body defaultOwner defaultRepo := by
    rw [ParseIssueReferences_eq]
    exact List.mem_map_of_mem Prod.snd (mapFind?_mem _ hvB)
  refine ⟨vA, hmemA, vB, hmemB, hkA, hkB, ?_, ?_, ?_⟩
  · intro hAB
    apply hne
    rw [← hkA, hAB, hkB]
  · rw [ParseIssueReferences_eq, values_filter_key _ _ _ hwf hvA]
    rfl
  · rw [ParseIssueReferences_eq, values_filter_key _ _ _ hwf hvB]
    rfl

theorem parse_cross_and_bare_are_distinct_witness :
    ("acme", "widgets", 9) ∈ crossRefTriples "" "see acme/widgets#9 and #9"
    ∧ 9 ∈ simpleRefNumbers "" "see acme/widgets#9 and #9"
    ∧ makeKey "acme" "widgets" 9 ≠ makeKey "other" "repo" 9
    ∧ (∃ refA ∈ ParseIssueReferences "" "see acme/widgets#9 and #9" "other" "repo",
        ∃ refB ∈ ParseIssueReferences "" "see acme/widgets#9 and #9" "other" "repo",
          keyOf refA = makeKey "acme" "widgets" 9
          ∧ keyOf refB = makeKey "other" "repo" 9
          ∧ refA ≠ refB
          ∧ ((ParseIssueReferences "" "see acme/widgets#9 and #9" "other" "repo").filter
              (fun ref => keyOf ref == makeKey "acme" "widgets" 9)).length = 1
          ∧ ((ParseIssueReferences "" "see acme/widgets#9 and #9" "other" "repo").filter
              (fun ref => keyOf ref == makeKey "other" "repo" 9)).length = 1) :=
  ⟨by decide, by decide, by decide,
    parse_cross_and_bare_are_distinct "" "see acme/widgets#9 and #9" "other" "repo"
      (by decide) (by decide) (by decide)⟩

/-! ## The semantic selector versus its specification -/

theorem firstMaxBy_cons_none (p : Issue × ℚ) (l : List (Issue × ℚ))
    (hr : firstMaxBy l = none) : firstMaxBy (p :: l) = some p := by
  unfold firstMaxBy
  rw [hr]

theorem firstMaxBy_cons_some (p : Issue × ℚ) (l : List (Issue × ℚ))
    (q : Issue × ℚ) (hr : firstMaxBy l = some q) :
    firstMaxBy (p :: l) = if q.2 ≤ p.2 then some p else some q := by
  unfold firstMaxBy
  rw [hr]

theorem firstMaxBy_cons_isSome (p : Issue × ℚ) (l : List (Issue × ℚ)) :
    (firstMaxBy (p :: l)).isSome = true := by
  cases hr : firstMaxBy l with
  | none => rw [firstMaxBy_cons_none p l hr]; rfl
  | some q =>
    rw [firstMaxBy_cons_some p l q hr]
    by_cases hc : q.2 ≤ p.2
    · rw [if_pos hc]; rfl
    · rw [if_neg hc]; rfl

theorem firstMaxBy_mem :
    ∀ (l : List (Issue × ℚ)) (q : Issue × ℚ), firstMaxBy l = some q → q ∈ l := by
  intro l
  induction l with
  | nil => intro q h; simp [firstMaxBy] at h
  | cons p rest ih =>
    intro q h
    cases hr : firstMaxBy rest with
    | none =>
      rw [firstMaxBy_cons_none p rest hr] at h
      injection h with h
      exact h ▸ List.mem_cons_self p rest
    | some q2 =>
      rw [firstMaxBy_cons_some p rest q2 hr] at h
      by_cases hc : q2.2 ≤ p.2
      · rw [if_pos hc] at h
        injection h with h
        exact h ▸ List.mem_cons_self p rest
      · rw [if_neg hc] at h
        injection h with h
        exact List.mem_cons_of_mem p (h ▸ ih q2 hr)

theorem firstMaxBy_is_max :
    ∀ (l : List (Issue × ℚ)) (q : Issue × ℚ), firstMaxBy l = some q →
      ∀ p ∈ l, p.2 ≤ q.2 := by
  intro l
  induction l with
  | nil => intro q h; simp [firstMaxBy] at h
  | cons p0 rest ih =>
    intro q h p hp
    rcases List.mem_cons.mp hp with h2 | h2
    · subst h2
      cases hr : firstMaxBy rest with
      | none =>
        rw [firstMaxBy_cons_none p rest hr] at h
        injection h with h
        rw [← h]
      | some q2 =>
        rw [firstMaxBy_cons_some p rest q2 hr] at h
        by_cases hc : q2.2 ≤ p.2
        · rw [if_pos hc] at h
          injection h with h
          rw [← h]
        · rw [if_neg hc] at h
          injection h with h
          rw [← h]
          linarith [not_le.mp hc]
    · cases hr : firstMaxBy rest with
      | none =>
        cases rest with
        | nil => simp at h2
        | cons x xs =>
          have hx := firstMaxBy_cons_isSome x xs
          rw [hr] at hx
          simp at hx
      | some q2 =>
        have hle := ih q2 hr p h2
        rw [firstMaxBy_cons_some p0 rest q2 hr] at h
        by_cases hc : q2.2 ≤ p0.2
        · rw [if_pos hc] at h
          injection h with h
          rw [← h]
          linarith
        · rw [if_neg hc] at h
          injection h with h
          rw [← h]
          exact hle

theorem firstMaxBy_cons_of_lt (b p : Issue × ℚ) (l : List (Issue × ℚ))
    (h : b.2 < p.2) : firstMaxBy (b :: p :: l) = firstMaxBy (p :: l) := by
  cases hr : firstMaxBy (p :: l) with
  | none =>
    have hx := firstMaxBy_cons_isSome p l
    rw [hr] at hx
    simp at hx
  | some q =>
    have hq : p.2 ≤ q.2 := firstMaxBy_is_max _ q hr p (List.mem_cons_self p l)
    rw [firstMaxBy_cons_some b (p :: l) q hr, if_neg (by push_neg; linarith)]

theorem firstMaxBy_cons_cons_of_le (b p : Issue × ℚ) (l : List (Issue × ℚ))
    (h : p.2 ≤ b.2) : firstMaxBy (b :: p :: l) = firstMaxBy (b :: l) := by
  cases hr : firstMaxBy l with
  | none =>
    have hpl : firstMaxBy (p :: l) = some p := firstMaxBy_cons_none p l hr
    rw [firstMaxBy_cons_some b (p :: l) p hpl, if_pos h,
      firstMaxBy_cons_none b l hr]
  | some q2 =>
    by_cases hc : q2.2 ≤ p.2
    · have hpl : firstMaxBy (p :: l) = some p := by
        rw [firstMaxBy_cons_some p l q2 hr, if_pos hc]
      rw [firstMaxBy_cons_some b (p :: l) p hpl, if_pos h,
        firstMaxBy_cons_some b l q2 hr, if_pos (le_trans hc h)]
    · have hpl : firstMaxBy (p :: l) = some q2 := by
        rw [firstMaxBy_cons_some p l q2 hr, if_neg hc]
      rw [firstMaxBy_cons_some b (p :: l) q2 hpl,
        firstMaxBy_cons_some b l q2 hr]

theorem loop_cons (env : Env) (prIssue : Issue) (threshold : ℚ) (i : Issue)
    (rest : List Issue) (best : Option Issue) (bestSim : ℚ) :
    findBestSemanticMatchLoop env prIssue threshold (i :: rest) best bestSim
      = match env.compareSimilarity prIssue i with
        | Except.error _ =>
          findBestSemanticMatchLoop env prIssue threshold rest best bestSim
        | Except.ok s =>
          if bestSim < s ∧ threshold ≤ s then
            findBestSemanticMatchLoop env prIssue threshold rest (some i) s
          else
            findBestSemanticMatchLoop env prIssue threshold rest best bestSim := rfl

theorem loop_cons_error (env : Env) (prIssue : Issue) (threshold : ℚ)
    {i : Issue} {e : String} (rest : List Issue) (best : Option Issue)
    (bestSim : ℚ) (hcs : env.compareSimilarity prIssue i = Except.error e) :
    findBestSemanticMatchLoop env prIssue threshold (i :: rest) best bestSim
      = findBestSemanticMatchLoop env prIssue threshold rest best bestSim := by
  rw [loop_cons, hcs]

theorem loop_cons_ok (env : Env) (prIssue : Issue) (threshold : ℚ)
    {i : Issue} {s : ℚ} (rest : List Issue) (best : Option Issue)
    (bestSim : ℚ) (hcs : env.compareSimilarity prIssue i = Except.ok s) :
    findBestSemanticMatchLoop env prIssue threshold (i :: rest) best bestSim
      = if bestSim < s ∧ threshold ≤ s then
          findBestSemanticMatchLoop env prIssue threshold rest (some i) s
        else
          findBestSemanticMatchLoop env prIssue threshold rest best bestSim := by
  rw [loop_cons, hcs]

theorem scoredWith_cons_error (env : Env) (prIssue : Issue) {i : Issue}
    {e : String} (rest : List Issue)
    (hcs : env.compareSimilarity prIssue i = Except.error e) :
    scoredWith env prIssue (i :: rest) = scoredWith env prIssue rest := by
  unfold scoredWith
  rw [List.filterMap_cons]
  simp [hcs]

theorem scoredWith_cons_ok (env : Env) (prIssue : Issue) {i : Issue}
    {s : ℚ} (rest : List Issue)
    (hcs : env.compareSimilarity prIssue i = Except.ok s) :
    scoredWith env prIssue (i :: rest) = (i, s) :: scoredWith env prIssue rest := by
  unfold scoredWith
  rw [List.filterMap_cons]
  simp [hcs]

theorem meetsThreshold_cons_ge (threshold : ℚ) {i : Issue} {s : ℚ}
    (l : List (Issue × ℚ)) (hth : threshold ≤ s) :
    meetsThreshold threshold ((i, s) :: l) = (i, s) :: meetsThreshold threshold l := by
  unfold meetsThreshold
  rw [List.filter_cons]
  simp [hth]

theorem meetsThreshold_cons_lt (threshold : ℚ) {i : Issue} {s : ℚ}
    (l : List (Issue × ℚ)) (hth : ¬threshold ≤ s) :
    meetsThreshold threshold ((i, s) :: l) = meetsThreshold threshold l := by
  unfold meetsThreshold
  rw [List.filter_cons]
  simp [hth]

theorem loop_from_some (env : Env) (prIssue : Issue) (threshold : ℚ) :
    ∀ (l : List Issue) (b : Issue) (sb : ℚ), threshold ≤ sb →
      (findBestSemanticMatchLoop env prIssue threshold l (some b) sb).1
        = (firstMaxBy ((b, sb) ::
            meetsThreshold threshold (scoredWith env prIssue l))).map Prod.fst := by
  intro l
  induction l with
  | nil =>
    intro b sb _
    simp [findBestSemanticMatchLoop, scoredWith, meetsThreshold, firstMaxBy]
  | cons i rest ih =>
    intro b sb hsb
    cases hcs : env.compareSimilarity prIssue i with
    | error e =>
      rw [loop_cons_error env prIssue threshold rest (some b) sb hcs,
        scoredWith_cons_error env prIssue rest hcs]
      exact ih b sb hsb
    | ok s =>
      rw [loop_cons_ok env prIssue threshold rest (some b) sb hcs,
        scoredWith_cons_ok env prIssue rest hcs]
      by_cases hgt : sb < s ∧ threshold ≤ s
      · rw [if_pos hgt, meetsThreshold_cons_ge threshold _ hgt.2, ih i s hgt.2,
          firstMaxBy_cons_of_lt (b, sb) (i, s) _ hgt.1]
      · rw [if_neg hgt, ih b sb hsb]
        by_cases hth : threshold ≤ s
        · have hsle : s ≤ sb := by
            rcases not_and_or.mp hgt with h | h
            · exact le_of_not_lt h
            · exact absurd hth h
          rw [meetsThreshold_cons_ge threshold _ hth,
            firstMaxBy_cons_cons_of_le (b, sb) (i, s) _ hsle]
        · rw [meetsThreshold_cons_lt threshold _ hth]

theorem loop_from_none (env : Env) (prIssue : Issue) (threshold : ℚ)
    (hpos : 0 < threshold) :
    ∀ l : List Issue,
      (findBestSemanticMatchLoop env prIssue threshold l none 0).1
        = (firstMaxBy (meetsThreshold threshold
            (scoredWith env prIssue l))).map Prod.fst := by
  intro l
  induction l with
  | nil => simp [findBestSemanticMatchLoop, scoredWith, meetsThreshold, firstMaxBy]
  | cons i rest ih =>
    cases hcs : env.compareSimilarity prIssue i with
    | error e =>
      rw [loop_cons_error env prIssue threshold rest none 0 hcs,
        scoredWith_cons_error env prIssue rest hcs]
      exact ih
    | ok s =>
      rw [loop_cons_ok env prIssue threshold rest none 0 hcs,
        scoredWith_cons_ok env prIssue rest hcs]
      by_cases hth : threshold ≤ s
      · have hcond : (0 : ℚ) < s ∧ threshold ≤ s := ⟨lt_of_lt_of_le hpos hth, hth⟩
        rw [if_pos hcond, meetsThreshold_cons_ge threshold _ hth,
          loop_from_some env prIssue threshold rest i s hth]
      · have hcond : ¬((0 : ℚ) < s ∧ threshold ≤ s) := fun hh => hth hh.2
        rw [if_neg hcond, meetsThreshold_cons_lt threshold _ hth]
        exact ih

/-- C3 (amended: for positive thresholds): `findBestSemanticMatch` returns
exactly the specification selector's choice — no match when no successfully
scored candidate meets the threshold (even on a non-empty candidate list),
otherwise the first-seen candidate attaining the maximum score (strict `>`
ties break first-seen-wins) — and any returned match carries a score at
least the threshold. -/
theorem findBestSemanticMatch_agrees_spec (env : Env) (prTitle prBody : String)
    (issues : List Issue) (threshold : ℚ) (hpos : 0 < threshold) :
    (findBestSemanticMatch env prTitle prBody issues threshold).1
      = specSelectBestMatch env prTitle prBody issues threshold
    ∧ (∀ m, (findBestSemanticMatch env prTitle prBody issues threshold).1 = some m →
        ∃ s, (m, s) ∈ scoredCandidates env prTitle prBody issues ∧ threshold ≤ s) := by
  have hmain : (findBestSemanticMatch env prTitle prBody issues threshold).1
      = specSelectBestMatch env prTitle prBody issues threshold :=
    loop_from_none env { zeroIssue with Title := prTitle, Body := prBody }
      threshold hpos issues
  refine ⟨hmain, fun m hm => ?_⟩
  rw [hmain] at hm
  unfold specSelectBestMatch at hm
  rw [Option.map_eq_some'] at hm
  obtain ⟨q, hq, hqm⟩ := hm
  obtain ⟨mi, s⟩ := q
  have hqmem := firstMaxBy_mem _ _ hq
  unfold meetsThreshold at hqmem
  have hsp := List.mem_filter.mp hqmem
  refine ⟨s, ?_, by simpa using hsp.2⟩
  have hm2 : mi = m := hqm
  rw [← hm2]
  exact hsp.1

theorem findBestSemanticMatch_agrees_spec_witness :
    (0 : ℚ) < 85/100
    ∧ (findBestSemanticMatch envScore85 "t" "b" [candidateB] (85/100)).1
        = specSelectBestMatch envScore85 "t" "b" [candidateB] (85/100) :=
  ⟨by norm_num,
    (findBestSemanticMatch_agrees_spec envScore85 "t" "b" [candidateB]
      (85/100) (by norm_num)).1⟩

/-- C3 counterexample (refuting the claim for *every* threshold): with
threshold 0 and a single candidate successfully scored 0, the candidate's
score meets the threshold, so the claim demands exactly one match (the
specification selector indeed picks it) — yet the code returns no match,
because `similarityScore > bestSimilarity` starts from `bestSimilarity = 0`
and can never fire. -/
theorem findBestSemanticMatch_zero_threshold_ce :
    (zeroIssue, (0 : ℚ)) ∈ scoredCandidates envScore0 "t" "b" [zeroIssue]
    ∧ (0 : ℚ) ≤ 0
    ∧ specSelectBestMatch envScore0 "t" "b" [zeroIssue] 0 = some zeroIssue
    ∧ (findBestSemanticMatch envScore0 "t" "b" [zeroIssue] 0).1 = none := by
  refine ⟨?_, le_refl 0, ?_, ?_⟩
  · decide
  · decide
  · decide

/-! ## Step equations and trace shapes of the orchestrator -/

theorem resolveDirectRefs_nil (env : Env) :
    resolveDirectRefs env [] = ([], []) := rfl

theorem resolveDirectRefs_cons_error (env : Env) {ref : IssueReference}
    {msg : String} (rest : List IssueReference)
    (hr : env.getIssueByNumber ref.Owner ref.Repo ref.Number = Except.error msg) :
    resolveDirectRefs env (ref :: rest)
      = ((resolveDirectRefs env rest).1,
         Event.getIssueByNumber ref.Owner ref.Repo ref.Number
           :: (resolveDirectRefs env rest).2) := by
  simp only [resolveDirectRefs]
  rw [hr]

theorem resolveDirectRefs_cons_ok (env : Env) {ref : IssueReference}
    {issue : Issue} (rest : List IssueReference)
    (hr : env.getIssueByNumber ref.Owner ref.Repo ref.Number = Except.ok issue) :
    resolveDirectRefs env (ref :: rest)
      = (issue :: (resolveDirectRefs env rest).1,
         Event.getIssueByNumber ref.Owner ref.Repo ref.Number
           :: (resolveDirectRefs env rest).2) := by
  simp only [resolveDirectRefs]
  rw [hr]

theorem resolveDirectRefs_fst_ne_nil (env : Env) :
    ∀ (refs : List IssueReference),
      (∃ ref ∈ refs, ∃ i, env.getIssueByNumber ref.Owner ref.Repo ref.Number
        = Except.ok i) →
      (resolveDirectRefs env refs).1 ≠ [] := by
  intro refs
  induction refs with
  | nil => intro h; simp at h
  | cons ref rest ih =>
    rintro ⟨r2, hr2, i, hi⟩
    rcases List.mem_cons.mp hr2 with h2 | h2
    · subst h2
      rw [resolveDirectRefs_cons_ok env rest hi]
      simp
    · cases hr : env.getIssueByNumber ref.Owner ref.Repo ref.Number with
      | error msg =>
        rw [resolveDirectRefs_cons_error env rest hr]
        exact ih ⟨r2, h2, i, hi⟩
      | ok issue =>
        rw [resolveDirectRefs_cons_ok env rest hr]
        simp

theorem resolveDirectRefs_events (env : Env) :
    ∀ (refs : List IssueReference) (e : Event),
      e ∈ (resolveDirectRefs env refs).2 →
      ∃ o r n, e = Event.getIssueByNumber o r n := by
  intro refs
  induction refs with
  | nil => intro e he; simp [resolveDirectRefs_nil] at he
  | cons ref rest ih =>
    intro e he
    cases hr : env.getIssueByNumber ref.Owner ref.Repo ref.Number with
    | error msg =>
      rw [resolveDirectRefs_cons_error env rest hr] at he
      rcases List.mem_cons.mp he with h2 | h2
      · exact ⟨ref.Owner, ref.Repo, ref.Number, h2⟩
      · exact ih e h2
    | ok issue =>
      rw [resolveDirectRefs_cons_ok env rest hr] at he
      rcases List.mem_cons.mp he with h2 | h2
      · exact ⟨ref.Owner, ref.Repo, ref.Number, h2⟩
      · exact ih e h2

theorem applyDirect_nil (env : Env) : applyDirect env [] = (0, [], []) := rfl

theorem applyDirect_cons_error (env : Env) {issue : Issue} {e : String}
    (rest : List Issue) (hr : env.moveToPRReview issue = some e) :
    applyDirect env (issue :: rest)
      = ((applyDirect env rest).1,
         ("Failed to move issue #" ++ itoa issue.Number ++ " to PR Review: " ++ e)
           :: (applyDirect env rest).2.1,
         Event.moveToPRReview issue :: (applyDirect env rest).2.2) := by
  simp only [applyDirect]
  rw [hr]

theorem applyDirect_cons_ok (env : Env) {issue : Issue}
    (rest : List Issue) (hr : env.moveToPRReview issue = none) :
    applyDirect env (issue :: rest)
      = ((applyDirect env rest).1 + 1, (applyDirect env rest).2.1,
         Event.moveToPRReview issue :: (applyDirect env rest).2.2) := by
  simp only [applyDirect]
  rw [hr]

theorem applyDirect_events (env : Env) :
    ∀ (l : List Issue) (e : Event), e ∈ (applyDirect env l).2.2 →
      ∃ i, e = Event.moveToPRReview i := by
  intro l
  induction l with
  | nil => intro e he; simp [applyDirect_nil] at he
  | cons issue rest ih =>
    intro e he
    cases hr : env.moveToPRReview issue with
    | some msg =>
      rw [applyDirect_cons_error env rest hr] at he
      rcases List.mem_cons.mp he with h2 | h2
      · exact ⟨issue, h2⟩
      · exact ih e h2
    | none =>
      rw [applyDirect_cons_ok env rest hr] at he
      rcases List.mem_cons.mp he with h2 | h2
      · exact ⟨issue, h2⟩
      · exact ih e h2

theorem data_head_append (s t : String) (c : Char) (h : s.data.head? = some c) :
    (s ++ t).data.head? = some c := by
  rw [data_append, List.head?_append, h]
  rfl

theorem applyDirect_errors_head (env : Env) :
    ∀ (l : List Issue) (s : String), s ∈ (applyDirect env l).2.1 →
      s.data.head? = some 'F' := by
  intro l
  induction l with
  | nil => intro s hs; simp [applyDirect_nil] at hs
  | cons issue rest ih =>
    intro s hs
    cases hr : env.moveToPRReview issue with
    | some msg =>
      rw [applyDirect_cons_error env rest hr] at hs
      rcases List.mem_cons.mp hs with h2 | h2
      · rw [h2]
        exact data_head_append _ _ _ (data_head_append _ _ _ (data_head_append _ _ _ rfl))
      · exact ih s h2
    | none =>
      rw [applyDirect_cons_ok env rest hr] at hs
      exact ih s hs

theorem applySemOpt_events (env : Env) (prOwner prRepo : String) (prNumber : Nat) :
    ∀ (sm : Option Issue) (e : Event), e ∈ (applySemOpt env prOwner prRepo prNumber sm).2.2 →
      (∃ i, e = Event.moveToPRReview i)
      ∨ (∃ i, e = Event.linkPRToIssue prOwner prRepo prNumber i) := by
  intro sm e he
  cases sm with
  | none => simp [applySemOpt] at he
  | some m =>
    unfold applySemOpt applySemantic at he
    rcases List.mem_cons.mp he with h2 | h2
    · exact Or.inl ⟨m, h2⟩
    · rcases List.mem_cons.mp h2 with h3 | h3
      · exact Or.inr ⟨m, h3⟩
      · simp at h3

theorem applySemOpt_errors_head (env : Env) (prOwner prRepo : String)
    (prNumber : Nat) :
    ∀ (sm : Option Issue) (s : String),
      s ∈ (applySemOpt env prOwner prRepo prNumber sm).2.1 →
      s.data.head? = some 'F' := by
  intro sm s hs
  cases sm with
  | none => simp [applySemOpt] at hs
  | some m =>
    unfold applySemOpt applySemantic at hs
    rw [List.mem_append] at hs
    rcases hs with h2 | h2
    · cases hr : env.moveToPRReview m with
      | some msg =>
        rw [hr] at h2
        rcases List.mem_singleton.mp h2 with h3
        rw [h3]
        exact data_head_append _ _ _ (data_head_append _ _ _ (data_head_append _ _ _ rfl))
      | none => rw [hr] at h2; simp at h2
    · cases hr : env.linkPRToIssue prOwner prRepo prNumber m with
      | some msg =>
        rw [hr] at h2
        rcases List.mem_singleton.mp h2 with h3
        rw [h3]
        exact data_head_append _ _ _ (data_head_append _ _ _ (data_head_append _ _ _ rfl))
      | none => rw [hr] at h2; simp at h2

/-! ## Branch structure of `LinkPRToIssues` -/

theorem finishStep_dry (env : Env) (prOwner prRepo : String) (prNumber : Nat)
    (cfg : Config) (refsLen : Nat) (matched : List Issue) (ev2 : List Event)
    (se : List String) (sf : Bool) (sl : Nat) (sm : Option Issue)
    (ev3 : List Event) (hdry : cfg.DryRun = true) :
    finishStep env prOwner prRepo prNumber cfg refsLen matched ev2 se sf sl sm ev3
      = { report :=
            { DirectReferencesFound := refsLen
              IssuesLinkedDirect := matched.length
              SemanticMatchFound := sf
              IssueLinkedSemantic := sl
              IssuesMovedToPRReview := 0
              Errors := se }
          error := none
          trace := ev2 ++ ev3 } := by
  simp only [finishStep, hdry, if_true]

theorem finishStep_wet (env : Env) (prOwner prRepo : String) (prNumber : Nat)
    (cfg : Config) (refsLen : Nat) (matched : List Issue) (ev2 : List Event)
    (se : List String) (sf : Bool) (sl : Nat) (sm : Option Issue)
    (ev3 : List Event) (hdry : cfg.DryRun = false) :
    finishStep env prOwner prRepo prNumber cfg refsLen matched ev2 se sf sl sm ev3
      = { report :=
            { DirectReferencesFound := refsLen
              IssuesLinkedDirect := matched.length
              SemanticMatchFound := sf
              IssueLinkedSemantic := sl
              IssuesMovedToPRReview :=
                (applyDirect env matched).1
                  + (applySemOpt env prOwner prRepo prNumber sm).1
              Errors := se ++ (applyDirect env matched).2.1
                  ++ (applySemOpt env prOwner prRepo prNumber sm).2.1 }
          error := none
          trace := ev2 ++ ev3 ++ (applyDirect env matched).2.2
              ++ (applySemOpt env prOwner prRepo prNumber sm).2.2 } := by
  simp only [finishStep, hdry, Bool.false_eq_true, if_false]

theorem finishStep_error (env : Env) (prOwner prRepo : String) (prNumber : Nat)
    (cfg : Config) (refsLen : Nat) (matched : List Issue) (ev2 : List Event)
    (se : List String) (sf : Bool) (sl : Nat) (sm : Option Issue)
    (ev3 : List Event) :
    (finishStep env prOwner prRepo prNumber cfg refsLen matched ev2
      se sf sl sm ev3).error = none := by
  unfold finishStep
  split <;> rfl

theorem finishStep_decisions (env : Env) (prOwner prRepo : String)
    (prNumber : Nat) (cfg : Config) (refsLen : Nat) (matched : List Issue)
    (ev2 : List Event) (se : List String) (sf : Bool) (sl : Nat)
    (sm : Option Issue) (ev3 : List Event) :
    (finishStep env prOwner prRepo prNumber cfg refsLen matched ev2
        se sf sl sm ev3).report.DirectReferencesFound = refsLen
    ∧ (finishStep env prOwner prRepo prNumber cfg refsLen matched ev2
        se sf sl sm ev3).report.IssuesLinkedDirect = matched.length
    ∧ (finishStep env prOwner prRepo prNumber cfg refsLen matched ev2
        se sf sl sm ev3).report.SemanticMatchFound = sf
    ∧ (finishStep env prOwner prRepo prNumber cfg refsLen matched ev2
        se sf sl sm ev3).report.IssueLinkedSemantic = sl := by
  unfold finishStep
  split <;> exact ⟨rfl, rfl, rfl, rfl⟩

theorem LinkFrom_direct (env : Env) (prOwner prRepo : String) (prNumber : Nat)
    (prTitle prBody : String) (cfg : Config) (refs : List IssueReference)
    (hm : (resolveDirectRefs env refs).1 ≠ []) :
    LinkPRToIssuesFrom env prOwner prRepo prNumber prTitle prBody cfg refs
      = finishStep env prOwner prRepo prNumber cfg refs.length
          (resolveDirectRefs env refs).1 (resolveDirectRefs env refs).2
          [] false 0 none [] := by
  simp only [LinkPRToIssuesFrom]
  rw [if_neg (fun hh => hm (List.isEmpty_iff.mp hh))]

theorem LinkFrom_fetch_error (env : Env) (prOwner prRepo : String)
    (prNumber : Nat) (prTitle prBody : String) (cfg : Config)
    (refs : List IssueReference) {e : String}
    (hm : (resolveDirectRefs env refs).1 = [])
    (hf : env.getIssuesByStatuses targetStatuses = Except.error e) :
    LinkPRToIssuesFrom env prOwner prRepo prNumber prTitle prBody cfg refs
      = { report :=
            { DirectReferencesFound := refs.length
              IssuesLinkedDirect := 0
              SemanticMatchFound := false
              IssueLinkedSemantic := 0
              IssuesMovedToPRReview := 0
              Errors := [] }
          error := some ("failed to fetch issues for semantic matching: " ++ e)
          trace := (resolveDirectRefs env refs).2
            ++ [Event.getIssuesByStatuses targetStatuses] } := by
  simp only [LinkPRToIssuesFrom]
  rw [if_pos (List.isEmpty_iff.mpr hm), hf, hm]
  rfl

theorem LinkFrom_no_candidates (env : Env) (prOwner prRepo : String)
    (prNumber : Nat) (prTitle prBody : String) (cfg : Config)
    (refs : List IssueReference)
    (hm : (resolveDirectRefs env refs).1 = [])
    (hf : env.getIssuesByStatuses targetStatuses = Except.ok []) :
    LinkPRToIssuesFrom env prOwner prRepo prNumber prTitle prBody cfg refs
      = finishStep env prOwner prRepo prNumber cfg refs.length
          (resolveDirectRefs env refs).1 (resolveDirectRefs env refs).2
          [] false 0 none [Event.getIssuesByStatuses targetStatuses] := by
  simp only [LinkPRToIssuesFrom]
  rw [if_pos (List.isEmpty_iff.mpr hm), hf]
  rfl

theorem LinkFrom_semantic (env : Env) (prOwner prRepo : String)
    (prNumber : Nat) (prTitle prBody : String) (cfg : Config)
    (refs : List IssueReference) {issues : List Issue}
    (hm : (resolveDirectRefs env refs).1 = [])
    (hf : env.getIssuesByStatuses targetStatuses = Except.ok issues)
    (hne : issues ≠ []) :
    LinkPRToIssuesFrom env prOwner prRepo prNumber prTitle prBody cfg refs
      = match (findBestSemanticMatch env prTitle prBody issues
          cfg.DuplicateSimilarity).1 with
        | some m =>
          finishStep env prOwner prRepo prNumber cfg refs.length
            (resolveDirectRefs env refs).1 (resolveDirectRefs env refs).2
            [] true 1 (some m)
            (Event.getIssuesByStatuses targetStatuses ::
              issues.map (fun i => Event.compareSimilarity (prIssueOf prTitle prBody) i))
        | none =>
          finishStep env prOwner prRepo prNumber cfg refs.length
            (resolveDirectRefs env refs).1 (resolveDirectRefs env refs).2
            [] false 0 none
            (Event.getIssuesByStatuses targetStatuses ::
              issues.map (fun i => Event.compareSimilarity (prIssueOf prTitle prBody) i)) := by
  simp only [LinkPRToIssuesFrom]
  rw [if_pos (List.isEmpty_iff.mpr hm)]
  simp only [hf]
  rw [if_neg (fun hh => hne (List.isEmpty_iff.mp hh))]
  have h22 : (findBestSemanticMatch env prTitle prBody issues
      cfg.DuplicateSimilarity).2.2 = none := rfl
  simp only [h22]

/-! ## Claims about the linking orchestrator -/

/-- C1: whenever at least one directly extracted reference is confirmed
present on the board (its resolution succeeds), the semantic-matching path is
never entered: the run makes no candidate-fetch call and no
similarity-scoring call. -/
theorem direct_match_precludes_semantic_path (env : Env) (prOwner prRepo : String)
    (prNumber : Nat) (prTitle prBody : String) (cfg : Config)
    (h : ∃ ref ∈ ParseIssueReferences prTitle prBody prOwner prRepo,
      ∃ i, env.getIssueByNumber ref.Owner ref.Repo ref.Number = Except.ok i) :
    (∀ sts, Event.getIssuesByStatuses sts
        ∉ (LinkPRToIssues env prOwner prRepo prNumber prTitle prBody cfg).trace)
    ∧ (∀ a b, Event.compareSimilarity a b
        ∉ (LinkPRToIssues env prOwner prRepo prNumber prTitle prBody cfg).trace) := by
  have hne := resolveDirectRefs_fst_ne_nil env _ h
  unfold LinkPRToIssues
  rw [LinkFrom_direct env prOwner prRepo prNumber prTitle prBody cfg _ hne]
  cases hdry : cfg.DryRun with
  | true =>
    rw [finishStep_dry _ _ _ _ _ _ _ _ _ _ _ _ _ hdry]
    constructor
    · intro sts hmem
      rw [List.append_nil] at hmem
      obtain ⟨o, r, n, hshape⟩ := resolveDirectRefs_events env _ _ hmem
      exact Event.noConfusion hshape
    · intro a b hmem
      rw [List.append_nil] at hmem
      obtain ⟨o, r, n, hshape⟩ := resolveDirectRefs_events env _ _ hmem
      exact Event.noConfusion hshape
  | false =>
    rw [finishStep_wet _ _ _ _ _ _ _ _ _ _ _ _ _ hdry]
    have hsem : applySemOpt env prOwner prRepo prNumber none = (0, [], []) := rfl
    rw [hsem]
    constructor
    · intro sts hmem
      simp only [List.append_nil, List.mem_append] at hmem
      rcases hmem with hmem | hmem
      · obtain ⟨o, r, n, hshape⟩ := resolveDirectRefs_events env _ _ hmem
        exact Event.noConfusion hshape
      · obtain ⟨i, hshape⟩ := applyDirect_events env _ _ hmem
        exact Event.noConfusion hshape
    · intro a b hmem
      simp only [List.append_nil, List.mem_append] at hmem
      rcases hmem with hmem | hmem
      · obtain ⟨o, r, n, hshape⟩ := resolveDirectRefs_events env _ _ hmem
        exact Event.noConfusion hshape
      · obtain ⟨i, hshape⟩ := applyDirect_events env _ _ hmem
        exact Event.noConfusion hshape

theorem direct_match_precludes_semantic_path_witness :
    (∃ ref ∈ ParseIssueReferences "" "fixes #3" "acme" "app",
      ∃ i, envResolves.getIssueByNumber ref.Owner ref.Repo ref.Number = Except.ok i)
    ∧ Event.getIssuesByStatuses targetStatuses
        ∉ (LinkPRToIssues envResolves "acme" "app" 1 "" "fixes #3" cfgBase).trace :=
  ⟨⟨{ Owner := "acme", Repo := "app", Number := 3, IsExplicit := true },
      by decide, issueN3, rfl⟩,
    (direct_match_precludes_semantic_path envResolves "acme" "app" 1 "" "fixes #3"
      cfgBase
      ⟨{ Owner := "acme", Repo := "app", Number := 3, IsExplicit := true },
        by decide, issueN3, rfl⟩).1 targetStatuses⟩

/-- C5: the orchestrator returns a non-nil error exactly when no direct
reference resolved and the candidate fetch for semantic inference failed;
every other failure is absorbed and the report comes back with a nil error. -/
theorem hard_error_iff_candidate_fetch_fails (env : Env) (prOwner prRepo : String)
    (prNumber : Nat) (prTitle prBody : String) (cfg : Config) :
    (LinkPRToIssues env prOwner prRepo prNumber prTitle prBody cfg).error ≠ none
      ↔ ((resolveDirectRefs env
            (ParseIssueReferences prTitle prBody prOwner prRepo)).1 = []
          ∧ ∃ e, env.getIssuesByStatuses targetStatuses = Except.error e) := by
  unfold LinkPRToIssues
  by_cases hm : (resolveDirectRefs env
      (ParseIssueReferences prTitle prBody prOwner prRepo)).1 = []
  · cases hf : env.getIssuesByStatuses targetStatuses with
    | error e =>
      rw [LinkFrom_fetch_error env prOwner prRepo prNumber prTitle prBody cfg _ hm hf]
      simp [hm]
    | ok issues =>
      by_cases hi : issues = []
      · subst hi
        rw [LinkFrom_no_candidates env prOwner prRepo prNumber prTitle prBody cfg _ hm hf]
        simp [finishStep_error, hf]
      · rw [LinkFrom_semantic env prOwner prRepo prNumber prTitle prBody cfg _ hm hf hi]
        cases hsel : (findBestSemanticMatch env prTitle prBody issues
            cfg.DuplicateSimilarity).1 with
        | some m =>
          simp only [hsel]
          simp [finishStep_error, hf]
        | none =>
          simp only [hsel]
          simp [finishStep_error, hf]
  · rw [LinkFrom_direct env prOwner prRepo prNumber prTitle prBody cfg _ hm]
    simp [finishStep_error, hm]

/-- C6: with two resolved direct matches where the status move of the first
issue fails and the second succeeds, the report holds exactly one error
string and `IssuesMovedToPRReview = 1` — a per-issue mutation failure does
not stop processing. -/
theorem mutation_failure_is_isolated (env : Env) (prOwner prRepo : String)
    (prNumber : Nat) (prTitle prBody : String) (cfg : Config)
    (r1 r2 : IssueReference) (i1 i2 : Issue) (msg : String)
    (hrefs : ParseIssueReferences prTitle prBody prOwner prRepo = [r1, r2])
    (h1 : env.getIssueByNumber r1.Owner r1.Repo r1.Number = Except.ok i1)
    (h2 : env.getIssueByNumber r2.Owner r2.Repo r2.Number = Except.ok i2)
    (hm1 : env.moveToPRReview i1 = some msg)
    (hm2 : env.moveToPRReview i2 = none)
    (hdry : cfg.DryRun = false) :
    (LinkPRToIssues env prOwner prRepo prNumber prTitle prBody
        cfg).report.Errors.length = 1
    ∧ (LinkPRToIssues env prOwner prRepo prNumber prTitle prBody
        cfg).report.IssuesMovedToPRReview = 1 := by
  unfold LinkPRToIssues
  rw [hrefs]
  have hres : resolveDirectRefs env [r1, r2]
      = ([i1, i2],
         [Event.getIssueByNumber r1.Owner r1.Repo r1.Number,
          Event.getIssueByNumber r2.Owner r2.Repo r2.Number]) := by
    rw [resolveDirectRefs_cons_ok env _ h1, resolveDirectRefs_cons_ok env _ h2,
      resolveDirectRefs_nil]
  have had : applyDirect env [i1, i2]
      = (1, ["Failed to move issue #" ++ itoa i1.Number ++ " to PR Review: " ++ msg],
         [Event.moveToPRReview i1, Event.moveToPRReview i2]) := by
    rw [applyDirect_cons_error env _ hm1, applyDirect_cons_ok env _ hm2,
      applyDirect_nil]
  rw [LinkFrom_direct env prOwner prRepo prNumber prTitle prBody cfg _
    (by rw [hres]; simp)]
  rw [finishStep_wet _ _ _ _ _ _ _ _ _ _ _ _ _ hdry]
  rw [hres]
  have hsem : applySemOpt env prOwner prRepo prNumber none = (0, [], []) := rfl
  simp [had, hsem]

theorem mutation_failure_is_isolated_witness :
    ParseIssueReferences "" "fixes #1 fixes #2" "acme" "app"
        = [{ Owner := "acme", Repo := "app", Number := 1, IsExplicit := true },
           { Owner := "acme", Repo := "app", Number := 2, IsExplicit := true }]
    ∧ (LinkPRToIssues envMoveFail1 "acme" "app" 5 "" "fixes #1 fixes #2"
        cfgBase).report.Errors.length = 1
    ∧ (LinkPRToIssues envMoveFail1 "acme" "app" 5 "" "fixes #1 fixes #2"
        cfgBase).report.IssuesMovedToPRReview = 1 :=
  ⟨by decide,
    (mutation_failure_is_isolated envMoveFail1 "acme" "app" 5 "" "fixes #1 fixes #2"
      cfgBase { Owner := "acme", Repo := "app", Number := 1, IsExplicit := true }
      { Owner := "acme", Repo := "app", Number := 2, IsExplicit := true }
      issueN1 issueN2 "boom" (by decide) rfl rfl rfl rfl rfl).1,
    (mutation_failure_is_isolated envMoveFail1 "acme" "app" 5 "" "fixes #1 fixes #2"
      cfgBase { Owner := "acme", Repo := "app", Number := 1, IsExplicit := true }
      { Owner := "acme", Repo := "app", Number := 2, IsExplicit := true }
      issueN1 issueN2 "boom" (by decide) rfl rfl rfl rfl rfl).2⟩

theorem finishStep_nil_shift (env : Env) (prOwner prRepo : String)
    (prNumber : Nat) (cfg : Config) (refsLen : Nat) (ev2 : List Event)
    (se : List String) (sf : Bool) (sl : Nat) (sm : Option Issue)
    (ev3 : List Event) :
    finishStep env prOwner prRepo prNumber cfg refsLen [] ev2 se sf sl sm ev3
      = { report :=
            { (finishStep env prOwner prRepo prNumber cfg 0 [] [] se sf sl
                sm ev3).report with DirectReferencesFound := refsLen }
          error := none
          trace := ev2 ++ (finishStep env prOwner prRepo prNumber cfg 0 [] []
            se sf sl sm ev3).trace } := by
  by_cases hdry : cfg.DryRun = true
  · rw [finishStep_dry _ _ _ _ _ _ _ _ _ _ _ _ _ hdry,
      finishStep_dry _ _ _ _ _ _ _ _ _ _ _ _ _ hdry]
    simp
  · rw [finishStep_wet _ _ _ _ _ _ _ _ _ _ _ _ _ (by simpa using hdry),
      finishStep_wet _ _ _ _ _ _ _ _ _ _ _ _ _ (by simpa using hdry)]
    simp [applyDirect_nil]

theorem LinkFrom_resolve_nil_shift (env : Env) (prOwner prRepo : String)
    (prNumber : Nat) (prTitle prBody : String) (cfg : Config)
    (refs : List IssueReference) (hm : (resolveDirectRefs env refs).1 = []) :
    LinkPRToIssuesFrom env prOwner prRepo prNumber prTitle prBody cfg refs
      = { report :=
            { (LinkPRToIssuesFrom env prOwner prRepo prNumber prTitle prBody
                cfg []).report with DirectReferencesFound := refs.length }
          error := (LinkPRToIssuesFrom env prOwner prRepo prNumber prTitle
            prBody cfg []).error
          trace := (resolveDirectRefs env refs).2
            ++ (LinkPRToIssuesFrom env prOwner prRepo prNumber prTitle prBody
              cfg []).trace } := by
  have hm0 : (resolveDirectRefs env ([] : List IssueReference)).1 = [] := rfl
  cases hf : env.getIssuesByStatuses targetStatuses with
  | error e =>
    rw [LinkFrom_fetch_error env prOwner prRepo prNumber prTitle prBody cfg refs hm hf,
      LinkFrom_fetch_error env prOwner prRepo prNumber prTitle prBody cfg [] hm0 hf]
    simp [resolveDirectRefs_nil]
  | ok issues =>
    by_cases hi : issues = []
    · subst hi
      rw [LinkFrom_no_candidates env prOwner prRepo prNumber prTitle prBody cfg refs hm hf,
        LinkFrom_no_candidates env prOwner prRepo prNumber prTitle prBody cfg [] hm0 hf,
        hm]
      simp only [resolveDirectRefs_nil, List.length_nil]
      rw [finishStep_nil_shift]
      simp [finishStep_error]
    · rw [LinkFrom_semantic env prOwner prRepo prNumber prTitle prBody cfg refs hm hf hi,
        LinkFrom_semantic env prOwner prRepo prNumber prTitle prBody cfg [] hm0 hf hi]
      cases hsel : (findBestSemanticMatch env prTitle prBody issues
          cfg.DuplicateSimilarity).1 with
      | some m =>
        simp only [hsel, hm, resolveDirectRefs_nil, List.length_nil]
        rw [finishStep_nil_shift]
        simp [finishStep_error]
      | none =>
        simp only [hsel, hm, resolveDirectRefs_nil, List.length_nil]
        rw [finishStep_nil_shift]
        simp [finishStep_error]

theorem LinkFrom_report_DRF (env : Env) (prOwner prRepo : String)
    (prNumber : Nat) (prTitle prBody : String) (cfg : Config)
    (refs : List IssueReference) :
    (LinkPRToIssuesFrom env prOwner prRepo prNumber prTitle prBody cfg
        refs).report.DirectReferencesFound = refs.length := by
  by_cases hm : (resolveDirectRefs env refs).1 = []
  · cases hf : env.getIssuesByStatuses targetStatuses with
    | error e =>
      rw [LinkFrom_fetch_error env prOwner prRepo prNumber prTitle prBody cfg refs hm hf]
    | ok issues =>
      by_cases hi : issues = []
      · subst hi
        rw [LinkFrom_no_candidates env prOwner prRepo prNumber prTitle prBody cfg refs hm hf]
        exact (finishStep_decisions _ _ _ _ _ _ _ _ _ _ _ _ _).1
      · rw [LinkFrom_semantic env prOwner prRepo prNumber prTitle prBody cfg refs hm hf hi]
        cases hsel : (findBestSemanticMatch env prTitle prBody issues
            cfg.DuplicateSimilarity).1 with
        | some m =>
          simp only [hsel]
          exact (finishStep_decisions _ _ _ _ _ _ _ _ _ _ _ _ _).1
        | none =>
          simp only [hsel]
          exact (finishStep_decisions _ _ _ _ _ _ _ _ _ _ _ _ _).1
  · rw [LinkFrom_direct env prOwner prRepo prNumber prTitle prBody cfg refs hm]
    exact (finishStep_decisions _ _ _ _ _ _ _ _ _ _ _ _ _).1

theorem LinkFrom_report_ILD (env : Env) (prOwner prRepo : String)
    (prNumber : Nat) (prTitle prBody : String) (cfg : Config)
    (refs : List IssueReference) :
    (LinkPRToIssuesFrom env prOwner prRepo prNumber prTitle prBody cfg
        refs).report.IssuesLinkedDirect
      = (resolveDirectRefs env refs).1.length := by
  by_cases hm : (resolveDirectRefs env refs).1 = []
  · cases hf : env.getIssuesByStatuses targetStatuses with
    | error e =>
      rw [LinkFrom_fetch_error env prOwner prRepo prNumber prTitle prBody cfg refs hm hf, hm]
      rfl
    | ok issues =>
      by_cases hi : issues = []
      · subst hi
        rw [LinkFrom_no_candidates env prOwner prRepo prNumber prTitle prBody cfg refs hm hf]
        exact (finishStep_decisions _ _ _ _ _ _ _ _ _ _ _ _ _).2.1
      · rw [LinkFrom_semantic env prOwner prRepo prNumber prTitle prBody cfg refs hm hf hi]
        cases hsel : (findBestSemanticMatch env prTitle prBody issues
            cfg.DuplicateSimilarity).1 with
        | some m =>
          simp only [hsel]
          exact (finishStep_decisions _ _ _ _ _ _ _ _ _ _ _ _ _).2.1
        | none =>
          simp only [hsel]
          exact (finishStep_decisions _ _ _ _ _ _ _ _ _ _ _ _ _).2.1
  · rw [LinkFrom_direct env prOwner prRepo prNumber prTitle prBody cfg refs hm]
    exact (finishStep_decisions _ _ _ _ _ _ _ _ _ _ _ _ _).2.1

theorem LinkFrom_report_semantic_fields (env : Env) (prOwner prRepo : String)
    (prNumber : Nat) (prTitle prBody : String) (cfg : Config)
    (refs : List IssueReference) :
    ((LinkPRToIssuesFrom env prOwner prRepo prNumber prTitle prBody cfg
        refs).report.SemanticMatchFound,
     (LinkPRToIssuesFrom env prOwner prRepo prNumber prTitle prBody cfg
        refs).report.IssueLinkedSemantic)
      = (if (resolveDirectRefs env refs).1 = [] then
          match env.getIssuesByStatuses targetStatuses with
          | Except.error _ => ((false : Bool), (0 : Nat))
          | Except.ok issues =>
            if issues = [] then (false, 0)
            else
              match (findBestSemanticMatch env prTitle prBody issues
                  cfg.DuplicateSimilarity).1 with
              | some _ => (true, 1)
              | none => (false, 0)
        else (false, 0)) := by
  by_cases hm : (resolveDirectRefs env refs).1 = []
  · rw [if_pos hm]
    cases hf : env.getIssuesByStatuses targetStatuses with
    | error e =>
      rw [LinkFrom_fetch_error env prOwner prRepo prNumber prTitle prBody cfg refs hm hf]
    | ok issues =>
      show _ = (if issues = [] then ((false : Bool), (0 : Nat))
        else match (findBestSemanticMatch env prTitle prBody issues
            cfg.DuplicateSimilarity).1 with
          | some _ => (true, 1)
          | none => (false, 0))
      by_cases hi : issues = []
      · subst hi
        rw [LinkFrom_no_candidates env prOwner prRepo prNumber prTitle prBody cfg refs hm hf]
        rw [if_pos rfl]
        have hd := finishStep_decisions env prOwner prRepo prNumber cfg
          refs.length (resolveDirectRefs env refs).1 (resolveDirectRefs env refs).2
          [] false 0 none [Event.getIssuesByStatuses targetStatuses]
        rw [hd.2.2.1, hd.2.2.2]
      · rw [if_neg hi,
          LinkFrom_semantic env prOwner prRepo prNumber prTitle prBody cfg refs hm hf hi]
        cases hsel : (findBestSemanticMatch env prTitle prBody issues
            cfg.DuplicateSimilarity).1 with
        | some m =>
          simp only [hsel]
          have hd := finishStep_decisions env prOwner prRepo prNumber cfg
            refs.length (resolveDirectRefs env refs).1 (resolveDirectRefs env refs).2
            [] true 1 (some m)
            (Event.getIssuesByStatuses targetStatuses ::
              issues.map (fun i => Event.compareSimilarity (prIssueOf prTitle prBody) i))
          rw [hd.2.2.1, hd.2.2.2]
        | none =>
          simp only [hsel]
          have hd := finishStep_decisions env prOwner prRepo prNumber cfg
            refs.length (resolveDirectRefs env refs).1 (resolveDirectRefs env refs).2
            [] false 0 none
            (Event.getIssuesByStatuses targetStatuses ::
              issues.map (fun i => Event.compareSimilarity (prIssueOf prTitle prBody) i))
          rw [hd.2.2.1, hd.2.2.2]
  · rw [if_neg hm, LinkFrom_direct env prOwner prRepo prNumber prTitle prBody cfg refs hm]
    have hd := finishStep_decisions env prOwner prRepo prNumber cfg
      refs.length (resolveDirectRefs env refs).1 (resolveDirectRefs env refs).2
      [] false 0 none []
    rw [hd.2.2.1, hd.2.2.2]

theorem ev3_no_mutation_events (sts : List String) (pri : Issue)
    (issues : List Issue) :
    (∀ i, Event.moveToPRReview i
      ∉ Event.getIssuesByStatuses sts
          :: issues.map (fun x => Event.compareSimilarity pri x))
    ∧ (∀ o r n i, Event.linkPRToIssue o r n i
      ∉ Event.getIssuesByStatuses sts
          :: issues.map (fun x => Event.compareSimilarity pri x)) := by
  constructor
  · intro i
    simp [List.mem_map]
  · intro o r n i
    simp [List.mem_map]

theorem LinkFrom_dry (env : Env) (prOwner prRepo : String) (prNumber : Nat)
    (prTitle prBody : String) (cfg : Config) (refs : List IssueReference)
    (hdry : cfg.DryRun = true) :
    (LinkPRToIssuesFrom env prOwner prRepo prNumber prTitle prBody cfg
        refs).report.IssuesMovedToPRReview = 0
    ∧ (∀ i, Event.moveToPRReview i
        ∉ (LinkPRToIssuesFrom env prOwner prRepo prNumber prTitle prBody cfg refs).trace)
    ∧ (∀ o r n i, Event.linkPRToIssue o r n i
        ∉ (LinkPRToIssuesFrom env prOwner prRepo prNumber prTitle prBody cfg refs).trace) := by
  have hresolve : ∀ e ∈ (resolveDirectRefs env refs).2,
      ∃ o r n, e = Event.getIssueByNumber o r n :=
    resolveDirectRefs_events env refs
  by_cases hm : (resolveDirectRefs env refs).1 = []
  · cases hf : env.getIssuesByStatuses targetStatuses with
    | error e =>
      rw [LinkFrom_fetch_error env prOwner prRepo prNumber prTitle prBody cfg refs hm hf]
      refine ⟨rfl, ?_, ?_⟩
      · intro i hmem
        rcases List.mem_append.mp hmem with h2 | h2
        · obtain ⟨o, r, n, hshape⟩ := hresolve _ h2
          exact Event.noConfusion hshape
        · rcases List.mem_singleton.mp h2 with h3
          exact Event.noConfusion h3
      · intro o r n i hmem
        rcases List.mem_append.mp hmem with h2 | h2
        · obtain ⟨o2, r2, n2, hshape⟩ := hresolve _ h2
          exact Event.noConfusion hshape
        · rcases List.mem_singleton.mp h2 with h3
          exact Event.noConfusion h3
    | ok issues =>
      by_cases hi : issues = []
      · subst hi
        rw [LinkFrom_no_candidates env prOwner prRepo prNumber prTitle prBody cfg refs hm hf,
          finishStep_dry _ _ _ _ _ _ _ _ _ _ _ _ _ hdry]
        refine ⟨rfl, ?_, ?_⟩
        · intro i hmem
          rcases List.mem_append.mp hmem with h2 | h2
          · obtain ⟨o, r, n, hshape⟩ := hresolve _ h2
            exact Event.noConfusion hshape
          · rcases List.mem_singleton.mp h2 with h3
            exact Event.noConfusion h3
        · intro o r n i hmem
          rcases List.mem_append.mp hmem with h2 | h2
          · obtain ⟨o2, r2, n2, hshape⟩ := hresolve _ h2
            exact Event.noConfusion hshape
          · rcases List.mem_singleton.mp h2 with h3
            exact Event.noConfusion h3
      · rw [LinkFrom_semantic env prOwner prRepo prNumber prTitle prBody cfg refs hm hf hi]
        have hev3 := ev3_no_mutation_events targetStatuses (prIssueOf prTitle prBody) issues
        cases hsel : (findBestSemanticMatch env prTitle prBody issues
            cfg.DuplicateSimilarity).1 with
        | some m =>
          simp only [hsel]
          rw [finishStep_dry _ _ _ _ _ _ _ _ _ _ _ _ _ hdry]
          refine ⟨rfl, ?_, ?_⟩
          · intro i hmem
            rcases List.mem_append.mp hmem with h2 | h2
            · obtain ⟨o, r, n, hshape⟩ := hresolve _ h2
              exact Event.noConfusion hshape
            · exact hev3.1 i h2
          · intro o r n i hmem
            rcases List.mem_append.mp hmem with h2 | h2
            · obtain ⟨o2, r2, n2, hshape⟩ := hresolve _ h2
              exact Event.noConfusion hshape
            · exact hev3.2 o r n i h2
        | none =>
          simp only [hsel]
          rw [finishStep_dry _ _ _ _ _ _ _ _ _ _ _ _ _ hdry]
          refine ⟨rfl, ?_, ?_⟩
          · intro i hmem
            rcases List.mem_append.mp hmem with h2 | h2
            · obtain ⟨o, r, n, hshape⟩ := hresolve _ h2
              exact Event.noConfusion hshape
            · exact hev3.1 i h2
          · intro o r n i hmem
            rcases List.mem_append.mp hmem with h2 | h2
            · obtain ⟨o2, r2, n2, hshape⟩ := hresolve _ h2
              exact Event.noConfusion hshape
            · exact hev3.2 o r n i h2
  · rw [LinkFrom_direct env prOwner prRepo prNumber prTitle prBody cfg refs hm,
      finishStep_dry _ _ _ _ _ _ _ _ _ _ _ _ _ hdry]
    refine ⟨rfl, ?_, ?_⟩
    · intro i hmem
      rw [List.append_nil] at hmem
      obtain ⟨o, r, n, hshape⟩ := hresolve _ hmem
      exact Event.noConfusion hshape
    · intro o r n i hmem
      rw [List.append_nil] at hmem
      obtain ⟨o2, r2, n2, hshape⟩ := hresolve _ hmem
      exact Event.noConfusion hshape

/-- C7: when exactly one direct reference is extracted and its board
resolution fails, the report shows `DirectReferencesFound = 1` and
`IssuesLinkedDirect = 0`, and the run proceeds into semantic inference
exactly as a run with no extracted references: apart from the reference
counter and the leading resolution-fetch event, the result coincides with
the no-references pipeline. -/
theorem unresolved_direct_falls_through (env : Env) (prOwner prRepo : String)
    (prNumber : Nat) (prTitle prBody : String) (cfg : Config)
    (r : IssueReference) (msg : String)
    (hrefs : ParseIssueReferences prTitle prBody prOwner prRepo = [r])
    (hres : env.getIssueByNumber r.Owner r.Repo r.Number = Except.error msg) :
    (LinkPRToIssues env prOwner prRepo prNumber prTitle prBody
        cfg).report.DirectReferencesFound = 1
    ∧ (LinkPRToIssues env prOwner prRepo prNumber prTitle prBody
        cfg).report.IssuesLinkedDirect = 0
    ∧ (LinkPRToIssues env prOwner prRepo prNumber prTitle prBody cfg).report
        = { (LinkPRToIssuesFrom env prOwner prRepo prNumber prTitle prBody
              cfg []).report with DirectReferencesFound := 1 }
    ∧ (LinkPRToIssues env prOwner prRepo prNumber prTitle prBody cfg).error
        = (LinkPRToIssuesFrom env prOwner prRepo prNumber prTitle prBody cfg []).error
    ∧ (LinkPRToIssues env prOwner prRepo prNumber prTitle prBody cfg).trace
        = Event.getIssueByNumber r.Owner r.Repo r.Number
            :: (LinkPRToIssuesFrom env prOwner prRepo prNumber prTitle prBody
              cfg []).trace := by
  have hr1 : resolveDirectRefs env [r]
      = ([], [Event.getIssueByNumber r.Owner r.Repo r.Number]) := by
    rw [resolveDirectRefs_cons_error env _ hres, resolveDirectRefs_nil]
  unfold LinkPRToIssues
  rw [hrefs, LinkFrom_resolve_nil_shift env prOwner prRepo prNumber prTitle
    prBody cfg [r] (by rw [hr1]), hr1]
  have hILD : (LinkPRToIssuesFrom env prOwner prRepo prNumber prTitle prBody
      cfg []).report.IssuesLinkedDirect = 0 := by
    rw [LinkFrom_report_ILD]
    rfl
  exact ⟨by simp, by simpa using hILD, by simp, rfl, by simp⟩

theorem unresolved_direct_falls_through_witness :
    ParseIssueReferences "" "fixes #42" "acme" "app"
        = [{ Owner := "acme", Repo := "app", Number := 42, IsExplicit := true }]
    ∧ (LinkPRToIssues envFetchFail "acme" "app" 5 "" "fixes #42"
        cfgBase).report.DirectReferencesFound = 1
    ∧ (LinkPRToIssues envFetchFail "acme" "app" 5 "" "fixes #42"
        cfgBase).report.IssuesLinkedDirect = 0 :=
  ⟨by decide,
    (unresolved_direct_falls_through envFetchFail "acme" "app" 5 "" "fixes #42"
      cfgBase { Owner := "acme", Repo := "app", Number := 42, IsExplicit := true }
      "nope" (by decide) rfl).1,
    (unresolved_direct_falls_through envFetchFail "acme" "app" 5 "" "fixes #42"
      cfgBase { Owner := "acme", Repo := "app", Number := 42, IsExplicit := true }
      "nope" (by decide) rfl).2.1⟩

/-- C8: with the dry-run flag set, the run performs zero board mutations (no
status move, no cross-reference link, `IssuesMovedToPRReview = 0`) while
making exactly the decisions of the non-dry run on the same inputs: equal
`DirectReferencesFound`, `IssuesLinkedDirect`, `SemanticMatchFound` and
`IssueLinkedSemantic`. -/
theorem dry_run_zero_mutations_same_decisions (env : Env)
    (prOwner prRepo : String) (prNumber : Nat) (prTitle prBody : String)
    (cfg : Config) :
    (∀ i, Event.moveToPRReview i
        ∉ (LinkPRToIssues env prOwner prRepo prNumber prTitle prBody
            { cfg with DryRun := true }).trace)
    ∧ (∀ o r n i, Event.linkPRToIssue o r n i
        ∉ (LinkPRToIssues env prOwner prRepo prNumber prTitle prBody
            { cfg with DryRun := true }).trace)
    ∧ (LinkPRToIssues env prOwner prRepo prNumber prTitle prBody
        { cfg with DryRun := true }).report.IssuesMovedToPRReview = 0
    ∧ (LinkPRToIssues env prOwner prRepo prNumber prTitle prBody
        { cfg with DryRun := true }).report.DirectReferencesFound
      = (LinkPRToIssues env prOwner prRepo prNumber prTitle prBody
        { cfg with DryRun := false }).report.DirectReferencesFound
    ∧ (LinkPRToIssues env prOwner prRepo prNumber prTitle prBody
        { cfg with DryRun := true }).report.IssuesLinkedDirect
      = (LinkPRToIssues env prOwner prRepo prNumber prTitle prBody
        { cfg with DryRun := false }).report.IssuesLinkedDirect
    ∧ (LinkPRToIssues env prOwner prRepo prNumber prTitle prBody
        { cfg with DryRun := true }).report.SemanticMatchFound
      = (LinkPRToIssues env prOwner prRepo prNumber prTitle prBody
        { cfg with DryRun := false }).report.SemanticMatchFound
    ∧ (LinkPRToIssues env prOwner prRepo prNumber prTitle prBody
        { cfg with DryRun := true }).report.IssueLinkedSemantic
      = (LinkPRToIssues env prOwner prRepo prNumber prTitle prBody
        { cfg with DryRun := false }).report.IssueLinkedSemantic := by
  unfold LinkPRToIssues
  have hd := LinkFrom_dry env prOwner prRepo prNumber prTitle prBody
    { cfg with DryRun := true }
    (ParseIssueReferences prTitle prBody prOwner prRepo) rfl
  have hsem1 := LinkFrom_report_semantic_fields env prOwner prRepo prNumber
    prTitle prBody { cfg with DryRun := true }
    (ParseIssueReferences prTitle prBody prOwner prRepo)
  have hsem2 := LinkFrom_report_semantic_fields env prOwner prRepo prNumber
    prTitle prBody { cfg with DryRun := false }
    (ParseIssueReferences prTitle prBody prOwner prRepo)
  have hpair := hsem1.trans hsem2.symm
  refine ⟨hd.2.1, hd.2.2, hd.1, ?_, ?_, ?_, ?_⟩
  · rw [LinkFrom_report_DRF, LinkFrom_report_DRF]
  · rw [LinkFrom_report_ILD, LinkFrom_report_ILD]
  · exact congrArg Prod.fst hpair
  · exact congrArg Prod.snd hpair

/-- C10: for every candidate list, `findBestSemanticMatch` returns a nil
error (per-candidate scoring failures are skipped, never propagated), so the
orchestrator's "Semantic matching failed" branch is unreachable: no error
string of any run is a semantic-matching failure message. -/
theorem semantic_error_branch_unreachable (env : Env) (prOwner prRepo : String)
    (prNumber : Nat) (prTitle prBody : String) (cfg : Config)
    (issues : List Issue) (threshold : ℚ) :
    (findBestSemanticMatch env prTitle prBody issues threshold).2.2 = none
    ∧ ∀ e ∈ (LinkPRToIssues env prOwner prRepo prNumber prTitle prBody
        cfg).report.Errors, ∀ msg, e ≠ "Semantic matching failed: " ++ msg := by
  refine ⟨rfl, ?_⟩
  have hhead : ∀ e ∈ (LinkPRToIssues env prOwner prRepo prNumber prTitle
      prBody cfg).report.Errors, e.data.head? = some 'F' := by
    unfold LinkPRToIssues
    set refs := ParseIssueReferences prTitle prBody prOwner prRepo with hrefs
    have hfin : ∀ (refsLen : Nat) (matched : List Issue) (ev2 : List Event)
        (sf : Bool) (sl : Nat) (sm : Option Issue) (ev3 : List Event),
        ∀ s ∈ (finishStep env prOwner prRepo prNumber cfg refsLen matched ev2
          [] sf sl sm ev3).report.Errors, s.data.head? = some 'F' := by
      intro refsLen matched ev2 sf sl sm ev3 s hs
      by_cases hdry : cfg.DryRun = true
      · rw [finishStep_dry _ _ _ _ _ _ _ _ _ _ _ _ _ hdry] at hs
        simp at hs
      · rw [finishStep_wet _ _ _ _ _ _ _ _ _ _ _ _ _ (by simpa using hdry)] at hs
        simp only [List.nil_append, List.mem_append] at hs
        rcases hs with hs | hs
        · exact applyDirect_errors_head env _ s hs
        · exact applySemOpt_errors_head env _ _ _ _ s hs
    by_cases hm : (resolveDirectRefs env refs).1 = []
    · cases hf : env.getIssuesByStatuses targetStatuses with
      | error e =>
        rw [LinkFrom_fetch_error env prOwner prRepo prNumber prTitle prBody cfg refs hm hf]
        intro s hs
        simp at hs
      | ok issues =>
        by_cases hi : issues = []
        · subst hi
          rw [LinkFrom_no_candidates env prOwner prRepo prNumber prTitle prBody cfg refs hm hf]
          exact hfin _ _ _ _ _ _ _
        · rw [LinkFrom_semantic env prOwner prRepo prNumber prTitle prBody cfg refs hm hf hi]
          cases hsel : (findBestSemanticMatch env prTitle prBody issues
              cfg.DuplicateSimilarity).1 with
          | some m =>
            simp only [hsel]
            exact hfin _ _ _ _ _ _ _
          | none =>
            simp only [hsel]
            exact hfin _ _ _ _ _ _ _
    · rw [LinkFrom_direct env prOwner prRepo prNumber prTitle prBody cfg refs hm]
      exact hfin _ _ _ _ _ _ _
  intro e he msg hcontra
  have h1 := hhead e he
  have h2 : ("Semantic matching failed: " ++ msg).data.head? = some 'S' :=
    data_head_append "Semantic matching failed: " msg 'S' rfl
  rw [hcontra, h2] at h1
  exact absurd (Option.some.inj h1) (by decide)

theorem semantic_error_branch_unreachable_witness :
    (findBestSemanticMatch envMoveFail1 "" "fixes #1 fixes #2" [] (85/100)).2.2 = none
    ∧ ("Failed to move issue #" ++ itoa 1 ++ " to PR Review: " ++ "boom")
        ∈ (LinkPRToIssues envMoveFail1 "acme" "app" 5 "" "fixes #1 fixes #2"
            cfgBase).report.Errors
    ∧ ("Failed to move issue #" ++ itoa 1 ++ " to PR Review: " ++ "boom")
        ≠ "Semantic matching failed: " ++ "x" :=
  ⟨(semantic_error_branch_unreachable envMoveFail1 "acme" "app" 5 ""
      "fixes #1 fixes #2" cfgBase [] (85/100)).1,
    by decide,
    (semantic_error_branch_unreachable envMoveFail1 "acme" "app" 5 ""
      "fixes #1 fixes #2" cfgBase [] (85/100)).2 _ (by decide) "x"⟩

/-- C2 (refuted by the code, which contradicts the repository's own
documentation): the similarity threshold the orchestrator passes to
`findBestSemanticMatch` is exactly `cfg.DuplicateSimilarity`, the
system-wide duplicate-similarity configuration.  With the 0.85 default a
candidate scoring exactly 0.85 is selected; raising only
`DuplicateSimilarity` to the documented 0.95 deselects the same candidate on
otherwise identical inputs. -/
theorem semantic_threshold_is_DuplicateSimilarity :
    (LinkPRToIssues envScore85 "acme" "app" 1 "t" "no refs here"
        cfgBase).report.SemanticMatchFound = true
    ∧ (LinkPRToIssues envScore85 "acme" "app" 1 "t" "no refs here"
        { cfgBase with DuplicateSimilarity := 95/100 }).report.SemanticMatchFound
      = false := by
  have hrefs : ParseIssueReferences "t" "no refs here" "acme" "app" = [] := by
    decide
  have hm : (resolveDirectRefs envScore85
      (ParseIssueReferences "t" "no refs here" "acme" "app")).1 = [] := by
    rw [hrefs]
    rfl
  have hf : envScore85.getIssuesByStatuses targetStatuses
      = Except.ok [candidateB] := rfl
  have hcs : envScore85.compareSimilarity (prIssueOf "t" "no refs here")
      candidateB = Except.ok (85/100) := rfl
  have hne : [candidateB] ≠ ([] : List Issue) := by simp
  constructor
  · have hsel : (findBestSemanticMatch envScore85 "t" "no refs here"
        [candidateB] cfgBase.DuplicateSimilarity).1 = some candidateB := by
      show (findBestSemanticMatchLoop envScore85 (prIssueOf "t" "no refs here")
        cfgBase.DuplicateSimilarity [candidateB] none 0).1 = some candidateB
      rw [loop_cons_ok envScore85 (prIssueOf "t" "no refs here")
        cfgBase.DuplicateSimilarity [] none 0 hcs,
        if_pos ⟨by norm_num, show (85/100 : ℚ) ≤ 85/100 from le_refl _⟩]
      rfl
    have h := LinkFrom_report_semantic_fields envScore85 "acme" "app" 1
      "t" "no refs here" cfgBase
      (ParseIssueReferences "t" "no refs here" "acme" "app")
    rw [if_pos hm] at h
    simp only [hf] at h
    rw [if_neg hne] at h
    simp only [hsel] at h
    exact congrArg Prod.fst h
  · have hsel : (findBestSemanticMatch envScore85 "t" "no refs here"
        [candidateB] (95/100 : ℚ)).1 = none := by
      show (findBestSemanticMatchLoop envScore85 (prIssueOf "t" "no refs here")
        (95/100 : ℚ) [candidateB] none 0).1 = none
      rw [loop_cons_ok envScore85 (prIssueOf "t" "no refs here") (95/100 : ℚ)
        [] none 0 hcs,
        if_neg (show ¬((0 : ℚ) < 85/100 ∧ (95/100 : ℚ) ≤ 85/100) by norm_num)]
      rfl
    have h := LinkFrom_report_semantic_fields envScore85 "acme" "app" 1
      "t" "no refs here" { cfgBase with DuplicateSimilarity := 95/100 }
      (ParseIssueReferences "t" "no refs here" "acme" "app")
    have hds : ({ cfgBase with DuplicateSimilarity := 95/100 } :
        Config).DuplicateSimilarity = (95/100 : ℚ) := rfl
    rw [if_pos hm] at h
    simp only [hf, hds] at h
    rw [if_neg hne] at h
    simp only [hsel] at h
    exact congrArg Prod.fst h

end ProjectAgent
